import Mathlib

set_option linter.unusedVariables false

set_option linter.unusedTactic false

set_option linter.deprecated false

set_option linter.unreachableTactic false

/-!
Shallow embedding of the OpenTherm Manchester decoder
(`src/scripts/decode_opentherm.py`, function `decode_opentherm`) and of the
pulse synthesizer (`src/testing/generate_pulses.py`, functions
`emit_halfbit_stream` and `collapse_runs`), together with proofs settling
the specification claims about them.

Conventions of the embedding:
* A pulse is a pair `(level, duration_us)` of naturals; levels are `0` (LOW)
  and `1` (HIGH), exactly as produced by `parse_irq_string` (`'H' ↦ 1`,
  `'L' ↦ 0`) and by the synthesizer (`False ↦ 0`, `True ↦ 1`).
* The Python decoder returns `None` at every failure site; the sites are
  distinguished by the diagnostic message printed just before each
  `return None`.  The embedding reifies those failure sites as the error
  kinds of `DecodeErr` (matching the taxonomy of spec §7) and returns
  `Except DecodeErr (Nat × List Nat)` in place of `Optional[(frame, bits)]`.
* The decoder's `while` loops are written with an explicit fuel argument so
  that all definitions compute by `rfl`/`decide`; a fuel of `ints.length`
  is always sufficient (the cursor strictly increases), and the fuel-free
  wrappers `mergeRun`/`decodeLoop` are the objects the theorems talk about.
* The synthesizer is embedded at `jitter_us = 0` (the only setting the
  round-trip claim uses); with zero jitter the Python code never draws a
  random number, so the embedding is exact for that case.
-/

/-- A pulse event `(level, duration_us)`. -/
abbrev Pulse := Nat × Nat

/-- Timing constant `ONE_MIN` (decode_opentherm.py line 15). -/
def ONE_MIN : Nat := 300

/-- Timing constant `ONE_MAX` (line 16). -/
def ONE_MAX : Nat := 700

/-- Timing constant `TWO_MIN` (line 17). -/
def TWO_MIN : Nat := 700

/-- Timing constant `TWO_MAX` (line 18). -/
def TWO_MAX : Nat := 1300

/-- Timing constant `GLITCH_MAX_US` (line 19). -/
def GLITCH_MAX_US : Nat := 200

/-- Level of pulse `i` (`interrupts[i][0]`); the default value is never
reached because every access in the decoder is index-guarded exactly as in
the Python source. -/
def getLevel (ints : List Pulse) (i : Nat) : Nat := (ints.getD i (0, 0)).1

/-- Duration of pulse `i` (`interrupts[i][1]`). -/
def getDur (ints : List Pulse) (i : Nat) : Nat := (ints.getD i (0, 0)).2

/-- Typed decode failures, one per `return None` site of `decode_opentherm`
(identified by the diagnostic printed there), matching spec §7. -/
inductive DecodeErr where
  | invalidDuration
  | halfCountMismatch
  | invalidManchester
  | invalidStartBit
  | invalidStopBit
  | parityError
  deriving DecidableEq, Repr

/-- HalfBitClassifier: duration window classification (lines 174-181, and
identically lines 145-151 inside the flip branch).  `300 ≤ dur < 700` is one
half, `700 ≤ dur ≤ 1300` is two halves, anything else is the
`Invalid duration` failure. -/
def classifyDur (dur : Nat) : Except DecodeErr Nat :=
  if ONE_MIN ≤ dur ∧ dur < ONE_MAX then .ok 1
  else if TWO_MIN ≤ dur ∧ dur ≤ TWO_MAX then .ok 2
  else .error .invalidDuration

/-- Flip-pattern look-ahead that stops the same-level merge early
(lines 118-123): the next pulse is one-half-sized, pulse `i+2` is a glitch
of the opposite level, and pulse `i+3` returns to the current level. -/
abbrev flipBreakCond (ints : List Pulse) (i level : Nat) : Prop :=
  ONE_MIN ≤ getDur ints (i + 1) ∧ getDur ints (i + 1) ≤ ONE_MAX ∧
  i + 2 < ints.length ∧ getDur ints (i + 2) < GLITCH_MAX_US ∧
  getLevel ints (i + 2) ≠ level ∧
  i + 3 < ints.length ∧ getLevel ints (i + 3) = level

/-- Fueled same-level merge loop (lines 112-129): while the next pulse has
the same level, add its duration, unless the flip pattern is detected. -/
def mergeRunF : Nat → List Pulse → Nat → Nat → Nat → Nat × Nat
  | 0, _, i, _, dur => (i, dur)
  | fuel + 1, ints, i, level, dur =>
    if i + 1 < ints.length ∧ getLevel ints (i + 1) = level then
      if flipBreakCond ints i level then (i, dur)
      else mergeRunF fuel ints (i + 1) level (dur + getDur ints (i + 1))
    else (i, dur)

/-- Same-level merge loop; fuel `ints.length` always suffices. -/
def mergeRun (ints : List Pulse) (i level dur : Nat) : Nat × Nat :=
  mergeRunF ints.length ints i level dur

/-- Glitch-restore guard (lines 84-88): there is a previously emitted half,
a next pulse exists, the previous emitted half equals the next pulse's
level, the next pulse is at least `ONE_MIN` long, and the glitch's level
differs from the previous emitted half. -/
abbrev restoreCond (ints : List Pulse) (i : Nat) (hl : List Nat) : Prop :=
  0 < hl.length ∧ i + 1 < ints.length ∧
  hl.getD (hl.length - 1) 0 = getLevel ints (i + 1) ∧
  ONE_MIN ≤ getDur ints (i + 1) ∧
  getLevel ints i ≠ hl.getD (hl.length - 1) 0

/-- Stretched-segment compensation guard (lines 92-95): the pulse before the
glitch lasted 700-1100µs and the last two emitted halves both equal the
previously emitted half level. -/
abbrev popCond (ints : List Pulse) (i : Nat) (hl : List Nat) : Prop :=
  1 < i ∧ 700 ≤ getDur ints (i - 1) ∧ getDur ints (i - 1) ≤ 1100 ∧
  2 ≤ hl.length ∧ hl.getD (hl.length - 2) 0 = hl.getD (hl.length - 1) 0

/-- Glitch handling (lines 82-105): restore the glitch as one half (after
possibly removing one stretched half), or drop it. -/
def glitchProcess (ints : List Pulse) (i : Nat) (hl : List Nat) : List Nat :=
  if restoreCond ints i hl then
    (if popCond ints i hl then hl.dropLast else hl) ++ [getLevel ints i]
  else hl

/-- Flip-emission guard evaluated after the merge (lines 136-140): pulse
`i+1` has the current level and a one-half-sized duration, and pulse `i+2`
is a glitch of the opposite level. -/
abbrev flipEmitCond (ints : List Pulse) (i level : Nat) : Prop :=
  i + 2 < ints.length ∧ getLevel ints (i + 1) = level ∧
  ONE_MIN ≤ getDur ints (i + 1) ∧ getDur ints (i + 1) ≤ ONE_MAX ∧
  getDur ints (i + 2) < GLITCH_MAX_US ∧ getLevel ints (i + 2) ≠ level

/-- One guarded append (`if len(half_levels) < 68: half_levels.append(level)`). -/
def appendCapped (hl : List Nat) (level : Nat) : List Nat :=
  if hl.length < 68 then hl ++ [level] else hl

/-- Guarded append loop `for _ in range(halves): ...` (lines 154-156 and
183-185). -/
def appendHalves (hl : List Nat) (level halves : Nat) : List Nat :=
  (List.range halves).foldl (fun acc _ => appendCapped acc level) hl

/-- Emission of the flipped segment (lines 160-168): the glitch's level is
appended once for a one-half summed duration, twice (second append guarded)
for a two-half summed duration, and nothing otherwise. -/
def flipAppend (ints : List Pulse) (i : Nat) (hl : List Nat) : List Nat :=
  let gl := getLevel ints (i + 2)
  let fd := getDur ints (i + 1) + getDur ints (i + 2)
  if ONE_MIN ≤ fd ∧ fd < ONE_MAX then hl ++ [gl]
  else if TWO_MIN ≤ fd ∧ fd ≤ TWO_MAX then
    (if (hl ++ [gl]).length < 68 then (hl ++ [gl]) ++ [gl] else hl ++ [gl])
  else hl

/-- Fueled main preprocessing loop of `decode_opentherm` (lines 78-188):
`while i < len(interrupts) and len(half_levels) < 68`. -/
def decodeLoopF : Nat → List Pulse → Nat → List Nat → Except DecodeErr (List Nat)
  | 0, _, _, hl => .ok hl
  | fuel + 1, ints, i, hl =>
    if i < ints.length ∧ hl.length < 68 then
      if getDur ints i < GLITCH_MAX_US then
        decodeLoopF fuel ints (i + 1) (glitchProcess ints i hl)
      else
        let level := getLevel ints i
        let r := mergeRun ints i level (getDur ints i)
        if flipEmitCond ints r.1 level then
          match classifyDur r.2 with
          | .error e => .error e
          | .ok halves =>
            decodeLoopF fuel ints (r.1 + 3)
              (flipAppend ints r.1 (appendHalves hl level halves))
        else
          match classifyDur r.2 with
          | .error e => .error e
          | .ok halves => decodeLoopF fuel ints (r.1 + 1) (appendHalves hl level halves)
    else .ok hl

/-- Main preprocessing loop; fuel `ints.length` always suffices because the
cursor strictly increases at every iteration. -/
def decodeLoop (ints : List Pulse) (i : Nat) (hl : List Nat) : Except DecodeErr (List Nat) :=
  decodeLoopF ints.length ints i hl

/-- Idle/start-merge fix (lines 73-75) followed by the main loop starting at
cursor 1. -/
def collectHalves (ints : List Pulse) : Except DecodeErr (List Nat) :=
  decodeLoop ints 1
    (if 1 < ints.length ∧ getLevel ints 0 = 1 ∧ getLevel ints 1 = 0 then [1] else [])

/-- End inference and half-count check (lines 190-197). -/
def finalizeHalves (hl : List Nat) : Except DecodeErr (List Nat) :=
  let hl2 := if hl.length = 67 ∧ hl.getD 66 0 = 1 then hl ++ [0] else hl
  if hl2.length = 68 then .ok hl2 else .error .halfCountMismatch

/-- Preprocessing stage of `decode_opentherm`: collect half-bits, then end
inference and length check. -/
def preprocessOT (ints : List Pulse) : Except DecodeErr (List Nat) := do
  let hl ← collectHalves ints
  finalizeHalves hl

/-- Decode one Manchester bit from a pair of halves (lines 205-215).  Both
failure prints (`two same halves` and the catch-all) are the
`InvalidManchester` failure of spec §7. -/
def pairBit (a c : Nat) : Except DecodeErr Nat :=
  if a = c then .error .invalidManchester
  else if a = 1 ∧ c = 0 then .ok 1
  else if a = 0 ∧ c = 1 then .ok 0
  else .error .invalidManchester

/-- The bit-decoding loop `for b in range(n)` (lines 200-215), reading
halves `2*b` and `2*b + 1` and appending the decoded bit. -/
def mbLoop (hl : List Nat) : Nat → Except DecodeErr (List Nat)
  | 0 => .ok []
  | n + 1 => do
    let bits ← mbLoop hl n
    let b ← pairBit (hl.getD (2 * n) 0) (hl.getD (2 * n + 1) 0)
    pure (bits ++ [b])

/-- ManchesterBitDecoder: 34 structural bits from 68 halves. -/
def decodeManchester (hl : List Nat) : Except DecodeErr (List Nat) := mbLoop hl 34

/-- Frame assembly `for b in range(1, 33): frame = (frame << 1) | bits[b]`
(lines 226-228); on the 0/1 bits produced by the Manchester stage,
`(frame << 1) | bit` equals `2 * frame + bit`. -/
def buildFrame (bits : List Nat) : Nat :=
  (List.range 32).foldl (fun f k => 2 * f + bits.getD (k + 1) 0) 0

/-- Fueled population count; `popcountF n n` is exact because the argument
at least halves at every step. -/
def popcountF : Nat → Nat → Nat
  | 0, _ => 0
  | _ + 1, 0 => 0
  | fuel + 1, n + 1 => popcountF fuel ((n + 1) / 2) + (n + 1) % 2

/-- Population count of set bits, embedding `bin(frame).count('1')`
(line 231). -/
def popcount (n : Nat) : Nat := popcountF n n

/-- FrameAssembler/Validator: start bit, stop bit, frame fold, parity
(lines 218-235). -/
def validateBits (bits : List Nat) : Except DecodeErr (Nat × List Nat) :=
  if bits.getD 0 0 ≠ 1 then .error .invalidStartBit
  else if bits.getD 33 0 ≠ 1 then .error .invalidStopBit
  else
    let frame := buildFrame bits
    if popcount frame % 2 ≠ 0 then .error .parityError
    else .ok (frame, bits)

/-- The full decoder `decode_opentherm` (lines 67-235). -/
def decode_opentherm (ints : List Pulse) : Except DecodeErr (Nat × List Nat) := do
  let hl ← preprocessOT ints
  let bits ← decodeManchester hl
  validateBits bits

/-- One Manchester bit as two half-bit pulses (`emit_bit` in
generate_pulses.py, lines 67-74, at `jitter_us = 0`): bit 1 is HIGH then
LOW, bit 0 is LOW then HIGH. -/
def emitBit (halfUs b : Nat) : List Pulse :=
  if b = 1 then [(1, halfUs), (0, halfUs)] else [(0, halfUs), (1, halfUs)]

/-- The 32 frame bits MSB-first: `(frame >> i) & 1` for `i = 31 .. 0`
(generate_pulses.py lines 80-81). -/
def frameBits (F : Nat) : List Nat := (List.range 32).map fun k => F >>> (31 - k) &&& 1

/-- Stage 1 of the synthesizer, `emit_halfbit_stream` at `jitter_us = 0`
(generate_pulses.py lines 29-86): a LOW idle pulse, then start bit 1, the
32 frame bits MSB-first and stop bit 1, each bit as two half-bit pulses.
Frames over 32 bits raise `ValueError` (`none` here). -/
def emit_halfbit_stream (F halfUs idleUs : Nat) : Option (List Pulse) :=
  if F ≤ 0xFFFFFFFF then
    some ((0, idleUs) :: ((1 :: (frameBits F ++ [1])).map (emitBit halfUs)).flatten)
  else none

/-- One step of `collapse_runs` (generate_pulses.py lines 94-101): append,
or fold the duration into the last entry when the level repeats. -/
def collapseStep (out : List Pulse) (p : Pulse) : List Pulse :=
  match out.getLast? with
  | none => out ++ [p]
  | some q => if q.1 ≠ p.1 then out ++ [p] else out.dropLast ++ [(p.1, q.2 + p.2)]

/-- Stage 2 of the synthesizer, `collapse_runs` (generate_pulses.py lines
89-102); a non-positive duration raises `ValueError` (`none` here). -/
def collapse_runs (ps : List Pulse) : Option (List Pulse) :=
  ps.foldlM (fun out p => if p.2 = 0 then none else some (collapseStep out p)) []


/-- Decidable equality for `Except` results, used to settle concrete decode
runs by `decide`. -/
instance exceptDecEq {e a : Type} [DecidableEq e] [DecidableEq a] :
    DecidableEq (Except e a)
  | .ok x, .ok y =>
    if h : x = y then .isTrue (congrArg Except.ok h)
    else .isFalse fun hc => h (Except.ok.inj hc)
  | .error x, .error y =>
    if h : x = y then .isTrue (congrArg Except.error h)
    else .isFalse fun hc => h (Except.error.inj hc)
  | .ok _, .error _ => .isFalse fun hc => Except.noConfusion hc
  | .error _, .ok _ => .isFalse fun hc => Except.noConfusion hc

/-- The half-bit level sequence of a bit string under Manchester encoding
(bit 1 as halves `[1, 0]`, bit 0 as halves `[0, 1]`); proof-side view of the
synthesizer's `emit_bit` sequence. -/
def manchesterHalves (bits : List Nat) : List Nat :=
  (bits.map fun b => if b = 1 then [1, 0] else [0, 1]).flatten

/-- Half-bit levels as pulses of a fixed duration. -/
def halfPulses (halfUs : Nat) (hs : List Nat) : List Pulse := hs.map fun l => (l, halfUs)

/-- Structural view of `collapse_runs` starting from a pending run `p`:
merge equal-level heads into the pending run, emit it otherwise. -/
def collapseFrom (p : Pulse) : List Pulse → List Pulse
  | [] => [p]
  | q :: rest =>
    if q.1 = p.1 then collapseFrom (p.1, p.2 + q.2) rest else p :: collapseFrom q rest

/-- No three consecutive equal entries (every same-level run has length at
most two); Manchester half sequences satisfy this. -/
def noTriple : List Nat → Prop
  | a :: b :: c :: rest => ¬(a = b ∧ b = c) ∧ noTriple (b :: c :: rest)
  | _ => True

/-- Pop condition as claim C4 states it: the pulse before the glitch lasted
700-1100µs and the two most recent halves equal the restored (glitch)
level. -/
abbrev claimPopCond (ints : List Pulse) (i : Nat) (hl : List Nat) : Prop :=
  700 ≤ getDur ints (i - 1) ∧ getDur ints (i - 1) ≤ 1100 ∧
  hl.getD (hl.length - 1) 0 = getLevel ints i ∧
  hl.getD (hl.length - 2) 0 = getLevel ints i

/-- Claim C4 as stated: during a glitch restore, one previously emitted half
is removed exactly when `claimPopCond` holds (removal is visible as the
output keeping the same length instead of growing by one). -/
def c4ClaimStatement : Prop :=
  ∀ (ints : List Pulse) (i : Nat) (hl : List Nat), restoreCond ints i hl →
    ((glitchProcess ints i hl).length = hl.length ↔ claimPopCond ints i hl)

/-- Frame fold as the spec words it: fold bits[1..32] most-significant bit
first (refinement comparison definition for claim C9). -/
def specFrameFold (bits : List Nat) : Nat :=
  ((bits.drop 1).take 32).foldl (fun a b => 2 * a + b) 0

/-- Stream reaching 69 collected halves: 67 alternating one-half pulses and
then a flip pattern whose first flipped append is unguarded. -/
def c5Stream : List Pulse :=
  (0, 5000) :: (List.range 67).map (fun k => ((k + 1) % 2, 500))
    ++ [(0, 500), (0, 500), (1, 100), (0, 500)]

/-- Stream producing exactly 67 halves whose last is HIGH. -/
def c7StreamHigh : List Pulse :=
  (0, 5000) :: (List.range 67).map fun k => ((k + 1) % 2, 500)

/-- Stream producing exactly 67 halves whose last is LOW. -/
def c7StreamLow : List Pulse :=
  (0, 5000) :: (List.range 67).map fun k => (k % 2, 500)

/-- Stream whose first Manchester pair is (1, 1): a two-half HIGH pulse and
then 66 alternating one-half pulses. -/
def c8Stream : List Pulse :=
  (0, 5000) :: (1, 1000) :: (List.range 66).map fun k => (k % 2, 500)

/-- Stream with an isolated sub-200µs glitch whose restore condition fails
(the pulse after it is only 250µs) and whose removal merges the two LOW
neighbours. -/
def c6Stream : List Pulse := [(1, 5000), (0, 650), (1, 5), (0, 250)]

/-- Stream satisfying the amended glitch-drop hypotheses: isolated glitch at
index 2, preceded by HIGH, followed by a LOW pulse of the glitch level. -/
def c6AlignedStream : List Pulse := [(0, 5000), (1, 500), (0, 80), (0, 1000), (1, 500)]

/-! ### Unfolding equations for the fueled loops -/

theorem mergeRunF_congr : ∀ (f1 f2 : Nat) (ints : List Pulse) (i level dur : Nat),
    ints.length ≤ i + 1 + f1 → ints.length ≤ i + 1 + f2 →
    mergeRunF f1 ints i level dur = mergeRunF f2 ints i level dur := by
  intro f1
  induction f1 with
  | zero =>
    intro f2 ints i level dur h1 h2
    cases f2 with
    | zero => rfl
    | succ g =>
      show mergeRunF 0 ints i level dur = mergeRunF (g + 1) ints i level dur
      rw [mergeRunF, mergeRunF, if_neg]
      intro hc
      omega
  | succ f ih =>
    intro f2 ints i level dur h1 h2
    cases f2 with
    | zero =>
      show mergeRunF (f + 1) ints i level dur = mergeRunF 0 ints i level dur
      rw [mergeRunF, mergeRunF, if_neg]
      intro hc
      omega
    | succ g =>
      show mergeRunF (f + 1) ints i level dur = mergeRunF (g + 1) ints i level dur
      rw [mergeRunF, mergeRunF]
      by_cases hc : i + 1 < ints.length ∧ getLevel ints (i + 1) = level
      · rw [if_pos hc, if_pos hc]
        by_cases hb : flipBreakCond ints i level
        · rw [if_pos hb, if_pos hb]
        · rw [if_neg hb, if_neg hb]
          exact ih g ints (i + 1) level (dur + getDur ints (i + 1)) (by omega) (by omega)
      · rw [if_neg hc, if_neg hc]

theorem mergeRunF_sufficient (f : Nat) (ints : List Pulse) (i level dur : Nat)
    (h : ints.length ≤ i + 1 + f) :
    mergeRunF f ints i level dur = mergeRun ints i level dur :=
  mergeRunF_congr f ints.length ints i level dur h (by omega)

theorem mergeRun_eq (ints : List Pulse) (i level dur : Nat) :
    mergeRun ints i level dur =
      if i + 1 < ints.length ∧ getLevel ints (i + 1) = level then
        if flipBreakCond ints i level then (i, dur)
        else mergeRun ints (i + 1) level (dur + getDur ints (i + 1))
      else (i, dur) := by
  have h1 : mergeRun ints i level dur = mergeRunF (ints.length + 1) ints i level dur :=
    (mergeRunF_sufficient _ ints i level dur (by omega)).symm
  rw [h1, mergeRunF]
  by_cases hc : i + 1 < ints.length ∧ getLevel ints (i + 1) = level
  · rw [if_pos hc, if_pos hc]
    by_cases hb : flipBreakCond ints i level
    · rw [if_pos hb, if_pos hb]
    · rw [if_neg hb, if_neg hb]
      exact mergeRunF_sufficient ints.length ints (i + 1) level _ (by omega)
  · rw [if_neg hc, if_neg hc]

theorem mergeRunF_ge : ∀ (f : Nat) (ints : List Pulse) (i level dur : Nat),
    i ≤ (mergeRunF f ints i level dur).1 := by
  intro f
  induction f with
  | zero => intro ints i level dur; exact Nat.le_refl i
  | succ f ih =>
    intro ints i level dur
    rw [mergeRunF]
    by_cases hc : i + 1 < ints.length ∧ getLevel ints (i + 1) = level
    · rw [if_pos hc]
      by_cases hb : flipBreakCond ints i level
      · rw [if_pos hb]
      · rw [if_neg hb]
        exact Nat.le_trans (Nat.le_succ i) (ih ints (i + 1) level _)
    · rw [if_neg hc]

theorem mergeRun_ge (ints : List Pulse) (i level dur : Nat) :
    i ≤ (mergeRun ints i level dur).1 :=
  mergeRunF_ge ints.length ints i level dur

theorem decodeLoopF_congr : ∀ (f1 f2 : Nat) (ints : List Pulse) (i : Nat) (hl : List Nat),
    ints.length ≤ i + f1 → ints.length ≤ i + f2 →
    decodeLoopF f1 ints i hl = decodeLoopF f2 ints i hl := by
  intro f1
  induction f1 with
  | zero =>
    intro f2 ints i hl h1 h2
    cases f2 with
    | zero => rfl
    | succ g =>
      show decodeLoopF 0 ints i hl = decodeLoopF (g + 1) ints i hl
      rw [decodeLoopF, decodeLoopF, if_neg]
      intro hc
      omega
  | succ f ih =>
    intro f2 ints i hl h1 h2
    cases f2 with
    | zero =>
      show decodeLoopF (f + 1) ints i hl = decodeLoopF 0 ints i hl
      rw [decodeLoopF, decodeLoopF, if_neg]
      intro hc
      omega
    | succ g =>
      show decodeLoopF (f + 1) ints i hl = decodeLoopF (g + 1) ints i hl
      rw [decodeLoopF, decodeLoopF]
      by_cases hc : i < ints.length ∧ hl.length < 68
      · rw [if_pos hc, if_pos hc]
        by_cases hg : getDur ints i < GLITCH_MAX_US
        · rw [if_pos hg, if_pos hg]
          exact ih g ints (i + 1) _ (by omega) (by omega)
        · rw [if_neg hg, if_neg hg]
          have hge := mergeRun_ge ints i (getLevel ints i) (getDur ints i)
          by_cases hf : flipEmitCond ints (mergeRun ints i (getLevel ints i) (getDur ints i)).1 (getLevel ints i)
          · rw [if_pos hf, if_pos hf]
            cases classifyDur (mergeRun ints i (getLevel ints i) (getDur ints i)).2 with
            | error e => rfl
            | ok halves => exact ih g ints _ _ (by omega) (by omega)
          · rw [if_neg hf, if_neg hf]
            cases classifyDur (mergeRun ints i (getLevel ints i) (getDur ints i)).2 with
            | error e => rfl
            | ok halves => exact ih g ints _ _ (by omega) (by omega)
      · rw [if_neg hc, if_neg hc]

theorem decodeLoopF_sufficient (f : Nat) (ints : List Pulse) (i : Nat) (hl : List Nat)
    (h : ints.length ≤ i + f) : decodeLoopF f ints i hl = decodeLoop ints i hl :=
  decodeLoopF_congr f ints.length ints i hl h (by omega)

theorem decodeLoop_eq (ints : List Pulse) (i : Nat) (hl : List Nat) :
    decodeLoop ints i hl =
      if i < ints.length ∧ hl.length < 68 then
        if getDur ints i < GLITCH_MAX_US then
          decodeLoop ints (i + 1) (glitchProcess ints i hl)
        else
          let level := getLevel ints i
          let r := mergeRun ints i level (getDur ints i)
          if flipEmitCond ints r.1 level then
            match classifyDur r.2 with
            | .error e => .error e
            | .ok halves =>
              decodeLoop ints (r.1 + 3) (flipAppend ints r.1 (appendHalves hl level halves))
          else
            match classifyDur r.2 with
            | .error e => .error e
            | .ok halves => decodeLoop ints (r.1 + 1) (appendHalves hl level halves)
      else .ok hl := by
  have h1 : decodeLoop ints i hl = decodeLoopF (ints.length + 1) ints i hl :=
    (decodeLoopF_sufficient _ ints i hl (by omega)).symm
  rw [h1, decodeLoopF]
  by_cases hc : i < ints.length ∧ hl.length < 68
  · rw [if_pos hc, if_pos hc]
    by_cases hg : getDur ints i < GLITCH_MAX_US
    · rw [if_pos hg, if_pos hg]
      exact decodeLoopF_sufficient ints.length ints (i + 1) _ (by omega)
    · rw [if_neg hg, if_neg hg]
      have hge := mergeRun_ge ints i (getLevel ints i) (getDur ints i)
      by_cases hf : flipEmitCond ints (mergeRun ints i (getLevel ints i) (getDur ints i)).1 (getLevel ints i)
      · rw [if_pos hf, if_pos hf]
        cases classifyDur (mergeRun ints i (getLevel ints i) (getDur ints i)).2 with
        | error e => rfl
        | ok halves => exact decodeLoopF_sufficient ints.length ints _ _ (by omega)
      · rw [if_neg hf, if_neg hf]
        cases classifyDur (mergeRun ints i (getLevel ints i) (getDur ints i)).2 with
        | error e => rfl
        | ok halves => exact decodeLoopF_sufficient ints.length ints _ _ (by omega)
  · rw [if_neg hc, if_neg hc]

/-! ### Small helper lemmas -/

theorem exc_bind_ok {e a b : Type} (x : a) (f : a → Except e b) :
    (Except.ok x : Except e a) >>= f = f x := rfl

theorem exc_bind_error {e a b : Type} (err : e) (f : a → Except e b) :
    (Except.error err : Except e a) >>= f = .error err := rfl

theorem getD_append_left {α : Type} (d : α) :
    ∀ (l l2 : List α) (n : Nat), n < l.length → (l ++ l2).getD n d = l.getD n d := by
  intro l
  induction l with
  | nil => intro l2 n h; exact absurd h (by simp)
  | cons a t ih =>
    intro l2 n h
    cases n with
    | zero => rfl
    | succ n => exact ih l2 n (by simpa using h)

theorem getD_concat_self {α : Type} (d : α) :
    ∀ (l : List α) (x : α), (l ++ [x]).getD l.length d = x := by
  intro l
  induction l with
  | nil => intro x; rfl
  | cons a t ih => intro x; exact ih x

/-! ### Claim C10: duration classification windows -/

/-- C10: duration classification yields 1 half exactly on `300 ≤ d < 700`,
2 halves exactly on `700 ≤ d ≤ 1300`, fails exactly outside `300..1300`,
and the boundary duration 700 is always classified as 2 halves. -/
theorem c10_classifier_windows :
    (∀ d : Nat,
      (classifyDur d = .ok 1 ↔ ONE_MIN ≤ d ∧ d < ONE_MAX) ∧
      (classifyDur d = .ok 2 ↔ TWO_MIN ≤ d ∧ d ≤ TWO_MAX) ∧
      (classifyDur d = .error .invalidDuration ↔ (d < ONE_MIN ∨ TWO_MAX < d))) ∧
    classifyDur 700 = .ok 2 := by
  constructor
  · intro d
    unfold classifyDur ONE_MIN ONE_MAX TWO_MIN TWO_MAX
    refine ⟨?_, ?_, ?_⟩ <;> split_ifs with h1 h2 <;> simp <;> omega
  · decide

/-! ### Claim C2: invalid durations are non-recoverable failures -/

/-- C2: a classified duration outside both windows yields the
`InvalidDuration` error; the loop then fails with that error (both when the
flip emission fires and when it does not); and the summed duration of a
flip-reinterpreted segment always lies inside one of the two windows, so it
is always classified as 1 or 2 halves. -/
theorem c2_invalid_duration_failure :
    (∀ d : Nat, ¬(ONE_MIN ≤ d ∧ d < ONE_MAX) → ¬(TWO_MIN ≤ d ∧ d ≤ TWO_MAX) →
      classifyDur d = .error .invalidDuration) ∧
    (∀ (ints : List Pulse) (i : Nat) (hl : List Nat),
      i < ints.length → hl.length < 68 → ¬(getDur ints i < GLITCH_MAX_US) →
      classifyDur (mergeRun ints i (getLevel ints i) (getDur ints i)).2 =
        .error .invalidDuration →
      decodeLoop ints i hl = .error .invalidDuration) ∧
    (∀ d1 d2 : Nat, ONE_MIN ≤ d1 → d1 ≤ ONE_MAX → d2 < GLITCH_MAX_US →
      classifyDur (d1 + d2) = .ok 1 ∨ classifyDur (d1 + d2) = .ok 2) := by
  refine ⟨?_, ?_, ?_⟩
  · intro d h1 h2
    unfold classifyDur
    rw [if_neg h1, if_neg h2]
  · intro ints i hl hi hlen hg hcl
    rw [decodeLoop_eq, if_pos ⟨hi, hlen⟩, if_neg hg]
    dsimp only
    rw [hcl]
    by_cases hf : flipEmitCond ints
        (mergeRun ints i (getLevel ints i) (getDur ints i)).1 (getLevel ints i)
    · rw [if_pos hf]
    · rw [if_neg hf]
  · intro d1 d2 h1 h2 h3
    unfold classifyDur ONE_MIN ONE_MAX TWO_MIN TWO_MAX at *
    unfold GLITCH_MAX_US at h3
    by_cases hw : 300 ≤ d1 + d2 ∧ d1 + d2 < 700
    · left; rw [if_pos hw]
    · right
      rw [if_neg hw, if_pos (by omega)]

/-- Witness for C2: a 100µs classified duration fails, a stream whose first
segment is 250µs fails the whole loop with `InvalidDuration`, and a summed
flip duration of 300µs classifies. -/
theorem c2_invalid_duration_failure_witness :
    classifyDur 100 = .error .invalidDuration ∧
    decodeLoop [(0, 5000), (0, 250)] 1 [] = .error .invalidDuration ∧
    (classifyDur (300 + 0) = .ok 1 ∨ classifyDur (300 + 0) = .ok 2) :=
  ⟨c2_invalid_duration_failure.1 100 (by decide) (by decide),
   c2_invalid_duration_failure.2.1 [(0, 5000), (0, 250)] 1 [] (by decide) (by decide)
     (by decide) (by decide),
   c2_invalid_duration_failure.2.2 300 0 (by decide) (by decide) (by decide)⟩

/-! ### Claim C3: the flip reinterpretation needs the full look-ahead -/

theorem mergeRunF_flip (ints : List Pulse) (level : Nat) :
    ∀ (f i dur : Nat), ints.length ≤ i + 1 + f →
      flipEmitCond ints (mergeRunF f ints i level dur).1 level →
      flipBreakCond ints (mergeRunF f ints i level dur).1 level := by
  intro f
  induction f with
  | zero =>
    intro i dur hf h
    simp only [mergeRunF] at h
    exact absurd h.1 (by omega)
  | succ f ih =>
    intro i dur hf h
    rw [mergeRunF] at h ⊢
    by_cases hc : i + 1 < ints.length ∧ getLevel ints (i + 1) = level
    · rw [if_pos hc] at h ⊢
      by_cases hb : flipBreakCond ints i level
      · rw [if_pos hb] at h ⊢
        exact hb
      · rw [if_neg hb] at h ⊢
        exact ih (i + 1) _ (by omega) h
    · rw [if_neg hc] at h ⊢
      exact absurd ⟨by omega, h.2.1⟩ hc

/-- C3: whenever the flip-emission guard holds at the post-merge cursor, the
full three-pulse look-ahead held there too: in particular pulse `i+3` exists
and returns to the current segment's level. -/
theorem c3_flip_needs_lookahead :
    ∀ (ints : List Pulse) (i level dur : Nat),
      flipEmitCond ints (mergeRun ints i level dur).1 level →
      flipBreakCond ints (mergeRun ints i level dur).1 level ∧
      (mergeRun ints i level dur).1 + 3 < ints.length ∧
      getLevel ints ((mergeRun ints i level dur).1 + 3) = level := by
  intro ints i level dur h
  have hb := mergeRunF_flip ints level ints.length i dur (by omega) h
  exact ⟨hb, hb.2.2.2.2.2.1, hb.2.2.2.2.2.2⟩

/-- Witness for C3: a concrete flip pattern where the emission guard holds
after the merge, so the look-ahead conclusion applies. -/
theorem c3_flip_needs_lookahead_witness :
    flipBreakCond [(0, 5000), (0, 500), (0, 500), (1, 100), (0, 500)]
      (mergeRun [(0, 5000), (0, 500), (0, 500), (1, 100), (0, 500)] 1 0 500).1 0 ∧
    (mergeRun [(0, 5000), (0, 500), (0, 500), (1, 100), (0, 500)] 1 0 500).1 + 3 <
      ([(0, 5000), (0, 500), (0, 500), (1, 100), (0, 500)] : List Pulse).length ∧
    getLevel [(0, 5000), (0, 500), (0, 500), (1, 100), (0, 500)]
      ((mergeRun [(0, 5000), (0, 500), (0, 500), (1, 100), (0, 500)] 1 0 500).1 + 3) = 0 :=
  c3_flip_needs_lookahead [(0, 5000), (0, 500), (0, 500), (1, 100), (0, 500)] 1 0 500
    (by decide)

/-! ### Claim C4: the stretched-half compensation condition -/

/-- C4 counterexample: the claim's pop condition (two most recent halves
equal to the restored glitch level) is false while the code does remove a
half, at glitch index 2 of `[(0,5000), (1,900), (0,100), (1,500)]` with
emitted halves `[1, 1]`: the code requires the two most recent halves to
equal the previously emitted half (here 1), which is the opposite of the
restored glitch level (here 0). -/
theorem c4_counterexample : ¬c4ClaimStatement := by
  intro h
  have h2 := h [(0, 5000), (1, 900), (0, 100), (1, 500)] 2 [1, 1] (by decide)
  rw [show glitchProcess [(0, 5000), (1, 900), (0, 100), (1, 500)] 2 [1, 1] = [1, 0]
    from rfl] at h2
  exact absurd (h2.mp rfl) (by decide)

/-- C4 amended: during a glitch restore one previously emitted half is
removed exactly when the code's pop condition holds: the glitch is at cursor
`i > 1`, the pulse immediately before it lasted 700-1100µs, at least two
halves were emitted, and the two most-recently-emitted halves are equal to
each other, i.e. to the previously emitted half (the level of the pulse
after the glitch, the opposite of the restored level). -/
theorem c4_amended_pop_iff :
    ∀ (ints : List Pulse) (i : Nat) (hl : List Nat), restoreCond ints i hl →
      ((glitchProcess ints i hl).length = hl.length ↔ popCond ints i hl) := by
  intro ints i hl hr
  unfold glitchProcess
  rw [if_pos hr]
  by_cases hp : popCond ints i hl
  · rw [if_pos hp]
    refine iff_of_true ?_ hp
    have h2 : 2 ≤ hl.length := hp.2.2.2.1
    simp only [List.length_append, List.length_cons, List.length_nil, List.length_dropLast]
    omega
  · rw [if_neg hp]
    refine iff_of_false ?_ hp
    simp only [List.length_append, List.length_cons, List.length_nil]
    omega

/-- Witness for C4 amended: at the counterexample input the restore fires,
the pop condition holds, and the output length indeed stays 2. -/
theorem c4_amended_pop_iff_witness :
    (glitchProcess [(0, 5000), (1, 900), (0, 100), (1, 500)] 2 [1, 1]).length =
      ([1, 1] : List Nat).length ∧
    popCond [(0, 5000), (1, 900), (0, 100), (1, 500)] 2 [1, 1] :=
  ⟨(c4_amended_pop_iff [(0, 5000), (1, 900), (0, 100), (1, 500)] 2 [1, 1]
      (by decide)).mpr (by decide),
   by decide⟩

/-! ### Claim C5: bound on the half-bit buffer -/

theorem appendCapped_length_le (hl : List Nat) (level : Nat) (h : hl.length ≤ 68) :
    (appendCapped hl level).length ≤ 68 := by
  unfold appendCapped
  split
  · simp only [List.length_append, List.length_cons, List.length_nil]
    omega
  · exact h

theorem appendHalves_length_le (level : Nat) :
    ∀ (n : Nat) (hl : List Nat), hl.length ≤ 68 → (appendHalves hl level n).length ≤ 68 := by
  intro n
  induction n with
  | zero => intro hl h; exact h
  | succ n ih =>
    intro hl h
    unfold appendHalves
    rw [List.range_succ, List.foldl_append]
    exact appendCapped_length_le _ level (ih hl h)

theorem flipAppend_length_le (ints : List Pulse) (i : Nat) (hl : List Nat)
    (h : hl.length ≤ 68) : (flipAppend ints i hl).length ≤ 69 := by
  unfold flipAppend
  dsimp only
  split
  · simp only [List.length_append, List.length_cons, List.length_nil]
    omega
  · split
    · split
      · simp only [List.length_append, List.length_cons, List.length_nil] at *
        omega
      · simp only [List.length_append, List.length_cons, List.length_nil]
        omega
    · omega

theorem glitchProcess_length_le (ints : List Pulse) (i : Nat) (hl : List Nat) :
    (glitchProcess ints i hl).length ≤ hl.length + 1 := by
  unfold glitchProcess
  split
  · split
    · simp only [List.length_append, List.length_cons, List.length_nil,
        List.length_dropLast]
      omega
    · simp only [List.length_append, List.length_cons, List.length_nil]
      omega
  · omega

theorem decodeLoopF_length_le :
    ∀ (fuel : Nat) (ints : List Pulse) (i : Nat) (hl hl2 : List Nat),
      hl.length ≤ 69 → decodeLoopF fuel ints i hl = .ok hl2 → hl2.length ≤ 69 := by
  intro fuel
  induction fuel with
  | zero =>
    intro ints i hl hl2 hle h
    rw [Except.ok.inj h] at hle
    exact hle
  | succ fuel ih =>
    intro ints i hl hl2 hle h
    rw [decodeLoopF] at h
    by_cases hc : i < ints.length ∧ hl.length < 68
    · rw [if_pos hc] at h
      by_cases hg : getDur ints i < GLITCH_MAX_US
      · rw [if_pos hg] at h
        refine ih ints (i + 1) _ hl2 ?_ h
        have := glitchProcess_length_le ints i hl
        omega
      · rw [if_neg hg] at h
        dsimp only at h
        by_cases hf : flipEmitCond ints
            (mergeRun ints i (getLevel ints i) (getDur ints i)).1 (getLevel ints i)
        · rw [if_pos hf] at h
          cases hcl : classifyDur (mergeRun ints i (getLevel ints i) (getDur ints i)).2 with
          | error e => rw [hcl] at h; exact Except.noConfusion h
          | ok halves =>
            rw [hcl] at h
            refine ih ints _ _ hl2 ?_ h
            exact flipAppend_length_le ints _ _
              (appendHalves_length_le (getLevel ints i) halves hl (by omega))
        · rw [if_neg hf] at h
          cases hcl : classifyDur (mergeRun ints i (getLevel ints i) (getDur ints i)).2 with
          | error e => rw [hcl] at h; exact Except.noConfusion h
          | ok halves =>
            rw [hcl] at h
            refine ih ints _ _ hl2 ?_ h
            have := appendHalves_length_le (getLevel ints i) halves hl (by omega)
            omega
    · rw [if_neg hc] at h
      rw [Except.ok.inj h] at hle
      exact hle

set_option maxRecDepth 80000 in
/-- C5 counterexample: on `c5Stream` the collected half-bit buffer reaches
69 entries, exceeding the claimed bound of 68 (the first flip-emission
append at line 162 is unguarded). -/
theorem c5_counterexample :
    collectHalves c5Stream = .ok ((List.range 69).map fun k => (k + 1) % 2) ∧
    68 < ((List.range 69).map fun k => (k + 1) % 2).length := by
  constructor
  · decide
  · decide

/-- C5 amended: the collected half-bit buffer never exceeds 69 entries; the
appends of the default classification, of the glitch restore and the second
flip append keep the count at 68 or below, but the first flip-emission
append is unguarded and can produce a 69th entry. -/
theorem c5_amended_bound :
    ∀ (ints : List Pulse) (hl2 : List Nat), collectHalves ints = .ok hl2 →
      hl2.length ≤ 69 := by
  intro ints hl2 h
  unfold collectHalves decodeLoop at h
  refine decodeLoopF_length_le ints.length ints 1 _ hl2 ?_ h
  split
  · decide
  · decide

set_option maxRecDepth 80000 in
/-- Witness for C5 amended: the bound applied to the 69-entry run of
`c5Stream`. -/
theorem c5_amended_bound_witness :
    ((List.range 69).map fun k => (k + 1) % 2).length ≤ 69 :=
  c5_amended_bound c5Stream ((List.range 69).map fun k => (k + 1) % 2) (by decide)

/-! ### Claim C7: end inference on exactly 67 halves -/

theorem finalizeHalves_high (hl : List Nat) (hlen : hl.length = 67)
    (hh : hl.getD 66 0 = 1) : finalizeHalves hl = .ok (hl ++ [0]) := by
  have hcond : hl.length = 67 ∧ hl.getD 66 0 = 1 := ⟨hlen, hh⟩
  unfold finalizeHalves
  rw [if_pos hcond, if_pos (by simp [hlen])]

theorem finalizeHalves_low (hl : List Nat) (hlen : hl.length = 67)
    (hh : hl.getD 66 0 = 0) : finalizeHalves hl = .error .halfCountMismatch := by
  have hcond : ¬(hl.length = 67 ∧ hl.getD 66 0 = 1) := by
    rw [hh]
    simp
  unfold finalizeHalves
  rw [if_neg hcond, if_neg (by omega)]

/-- C7: if the loop collected exactly 67 halves, then when the last is HIGH
an implicit LOW half is appended and decoding proceeds on the 68 halves,
and when the last is LOW the decode fails with `HalfCountMismatch`. -/
theorem c7_end_inference :
    ∀ (ints : List Pulse) (hl : List Nat), collectHalves ints = .ok hl →
      hl.length = 67 →
      (hl.getD 66 0 = 1 →
        decode_opentherm ints = (decodeManchester (hl ++ [0]) >>= validateBits)) ∧
      (hl.getD 66 0 = 0 → decode_opentherm ints = .error .halfCountMismatch) := by
  intro ints hl hc hlen
  constructor
  · intro hh
    unfold decode_opentherm preprocessOT
    rw [hc, exc_bind_ok, finalizeHalves_high hl hlen hh, exc_bind_ok]
  · intro hh
    unfold decode_opentherm preprocessOT
    rw [hc, exc_bind_ok, finalizeHalves_low hl hlen hh, exc_bind_error]

set_option maxRecDepth 80000 in
/-- Witness for C7: the alternating 67-pulse streams; the HIGH-ending one
proceeds to bit decoding of the 68 inferred halves, the LOW-ending one
fails with `HalfCountMismatch`. -/
theorem c7_end_inference_witness :
    decode_opentherm c7StreamHigh =
      (decodeManchester (((List.range 67).map fun k => (k + 1) % 2) ++ [0]) >>= validateBits) ∧
    decode_opentherm c7StreamLow = .error .halfCountMismatch :=
  ⟨(c7_end_inference c7StreamHigh ((List.range 67).map fun k => (k + 1) % 2)
      (by decide) (by decide)).1 (by decide),
   (c7_end_inference c7StreamLow ((List.range 67).map fun k => k % 2)
      (by decide) (by decide)).2 (by decide)⟩

/-! ### Claim C8: Manchester pair decoding -/

theorem pairBit_error_kind (a c : Nat) (e : DecodeErr) (h : pairBit a c = .error e) :
    e = .invalidManchester := by
  unfold pairBit at h
  split_ifs at h <;>
    first
      | exact (Except.error.inj h).symm
      | exact Except.noConfusion h

theorem mbLoop_error_kind (hl : List Nat) :
    ∀ (n : Nat) (e : DecodeErr), mbLoop hl n = .error e → e = .invalidManchester := by
  intro n
  induction n with
  | zero => intro e h; exact Except.noConfusion h
  | succ n ih =>
    intro e h
    rw [mbLoop] at h
    cases hm : mbLoop hl n with
    | error e2 =>
      rw [hm, exc_bind_error] at h
      rw [← Except.error.inj h]
      exact ih e2 hm
    | ok bits =>
      rw [hm, exc_bind_ok] at h
      cases hp : pairBit (hl.getD (2 * n) 0) (hl.getD (2 * n + 1) 0) with
      | error e2 =>
        rw [hp, exc_bind_error] at h
        rw [← Except.error.inj h]
        exact pairBit_error_kind _ _ e2 hp
      | ok b =>
        rw [hp, exc_bind_ok] at h
        exact Except.noConfusion h

theorem mbLoop_length (hl : List Nat) :
    ∀ (n : Nat) (bits : List Nat), mbLoop hl n = .ok bits → bits.length = n := by
  intro n
  induction n with
  | zero =>
    intro bits h
    rw [← Except.ok.inj h]
    rfl
  | succ n ih =>
    intro bits h
    rw [mbLoop] at h
    cases hm : mbLoop hl n with
    | error e2 => rw [hm, exc_bind_error] at h; exact Except.noConfusion h
    | ok bits2 =>
      rw [hm, exc_bind_ok] at h
      cases hp : pairBit (hl.getD (2 * n) 0) (hl.getD (2 * n + 1) 0) with
      | error e2 => rw [hp, exc_bind_error] at h; exact Except.noConfusion h
      | ok b =>
        rw [hp, exc_bind_ok] at h
        rw [← Except.ok.inj h]
        simp [ih bits2 hm]

theorem mbLoop_error_of_pair (hl : List Nat) :
    ∀ (n b : Nat), b < n → hl.getD (2 * b) 0 = hl.getD (2 * b + 1) 0 →
      mbLoop hl n = .error .invalidManchester := by
  intro n
  induction n with
  | zero => intro b hb heq; exact absurd hb (by omega)
  | succ n ih =>
    intro b hb heq
    rw [mbLoop]
    by_cases hbn : b < n
    · rw [ih b hbn heq, exc_bind_error]
    · have hbeq : b = n := by omega
      subst hbeq
      cases hm : mbLoop hl b with
      | error e2 =>
        rw [exc_bind_error, mbLoop_error_kind hl b e2 hm]
      | ok bits =>
        rw [exc_bind_ok]
        have hp : pairBit (hl.getD (2 * b) 0) (hl.getD (2 * b + 1) 0) =
            .error .invalidManchester := by
          unfold pairBit
          rw [if_pos heq]
        rw [hp, exc_bind_error]

theorem mbLoop_ok_pairs (hl : List Nat) :
    ∀ (n : Nat) (bits : List Nat), mbLoop hl n = .ok bits →
      ∀ b, b < n →
        (hl.getD (2 * b) 0 = 1 ∧ hl.getD (2 * b + 1) 0 = 0 ∧ bits.getD b 0 = 1) ∨
        (hl.getD (2 * b) 0 = 0 ∧ hl.getD (2 * b + 1) 0 = 1 ∧ bits.getD b 0 = 0) := by
  intro n
  induction n with
  | zero => intro bits h b hb; exact absurd hb (by omega)
  | succ n ih =>
    intro bits h b hb
    rw [mbLoop] at h
    cases hm : mbLoop hl n with
    | error e2 => rw [hm, exc_bind_error] at h; exact Except.noConfusion h
    | ok bits2 =>
      rw [hm, exc_bind_ok] at h
      cases hp : pairBit (hl.getD (2 * n) 0) (hl.getD (2 * n + 1) 0) with
      | error e2 => rw [hp, exc_bind_error] at h; exact Except.noConfusion h
      | ok v =>
        rw [hp, exc_bind_ok] at h
        have hb2 : bits = bits2 ++ [v] := (Except.ok.inj h).symm
        have hlen2 : bits2.length = n := mbLoop_length hl n bits2 hm
        by_cases hbn : b < n
        · have hres := ih bits2 hm b hbn
          rw [hb2, getD_append_left 0 bits2 [v] b (by omega)]
          exact hres
        · have hbeq : b = n := by omega
          subst hbeq
          have hget : bits.getD b 0 = v := by
            rw [hb2, ← hlen2]
            exact getD_concat_self 0 bits2 v
          unfold pairBit at hp
          by_cases h1 : hl.getD (2 * b) 0 = hl.getD (2 * b + 1) 0
          · rw [if_pos h1] at hp
            exact Except.noConfusion hp
          · rw [if_neg h1] at hp
            by_cases h2 : hl.getD (2 * b) 0 = 1 ∧ hl.getD (2 * b + 1) 0 = 0
            · rw [if_pos h2] at hp
              exact Or.inl ⟨h2.1, h2.2, by rw [hget]; exact (Except.ok.inj hp).symm⟩
            · rw [if_neg h2] at hp
              by_cases h3 : hl.getD (2 * b) 0 = 0 ∧ hl.getD (2 * b + 1) 0 = 1
              · rw [if_pos h3] at hp
                exact Or.inr ⟨h3.1, h3.2, by rw [hget]; exact (Except.ok.inj hp).symm⟩
              · rw [if_neg h3] at hp
                exact Except.noConfusion hp

/-- C8: with the preprocessed 68-half sequence, an equal pair at any bit
position makes the decode fail with `InvalidManchester`; and when bit
decoding succeeds, every decoded bit comes from a (HIGH, LOW) pair (bit 1)
or a (LOW, HIGH) pair (bit 0). -/
theorem c8_manchester_pairs :
    (∀ (ints : List Pulse) (hl : List Nat) (b : Nat),
      preprocessOT ints = .ok hl → b < 34 →
      hl.getD (2 * b) 0 = hl.getD (2 * b + 1) 0 →
      decode_opentherm ints = .error .invalidManchester) ∧
    (∀ (hl bits : List Nat), decodeManchester hl = .ok bits → ∀ b, b < 34 →
      (hl.getD (2 * b) 0 = 1 ∧ hl.getD (2 * b + 1) 0 = 0 ∧ bits.getD b 0 = 1) ∨
      (hl.getD (2 * b) 0 = 0 ∧ hl.getD (2 * b + 1) 0 = 1 ∧ bits.getD b 0 = 0)) := by
  constructor
  · intro ints hl b hpre hb heq
    unfold decode_opentherm
    rw [hpre, exc_bind_ok]
    unfold decodeManchester
    rw [mbLoop_error_of_pair hl 34 b hb heq, exc_bind_error]
  · intro hl bits h b hb
    exact mbLoop_ok_pairs hl 34 bits h b hb

set_option maxRecDepth 80000 in
/-- Witness for C8: the first pair of `c8Stream`'s halves is (1, 1), so the
decode fails with `InvalidManchester`; on the alternating halves the first
pair is (1, 0) and decodes to bit 1. -/
theorem c8_manchester_pairs_witness :
    decode_opentherm c8Stream = .error .invalidManchester ∧
    ((((List.range 68).map fun k => (k + 1) % 2).getD 0 0 = 1 ∧
      ((List.range 68).map fun k => (k + 1) % 2).getD 1 0 = 0 ∧
      (List.replicate 34 1).getD 0 0 = 1) ∨
     (((List.range 68).map fun k => (k + 1) % 2).getD 0 0 = 0 ∧
      ((List.range 68).map fun k => (k + 1) % 2).getD 1 0 = 1 ∧
      (List.replicate 34 1).getD 0 0 = 0)) :=
  ⟨c8_manchester_pairs.1 c8Stream ((List.range 68).map fun k => if k < 2 then 1 else k % 2)
      0 (by decide) (by decide) (by decide),
   c8_manchester_pairs.2 ((List.range 68).map fun k => (k + 1) % 2) (List.replicate 34 1)
      (by decide) 0 (by decide)⟩

/-! ### Claim C9: frame assembly and parity -/

theorem drop_one_getD (d : Nat) (l : List Nat) (n : Nat) :
    (l.drop 1).getD n d = l.getD (n + 1) d := by
  cases l with
  | nil => rfl
  | cons a t => rfl

theorem take_concat_getD {α : Type} (d : α) :
    ∀ (l : List α) (n : Nat), n < l.length → l.take (n + 1) = l.take n ++ [l.getD n d] := by
  intro l
  induction l with
  | nil => intro n h; exact absurd h (by simp)
  | cons a t ih =>
    intro n h
    cases n with
    | zero => rfl
    | succ n =>
      simp only [List.take_succ_cons, List.getD_cons_succ, List.cons_append]
      rw [ih n (by simpa using h)]

theorem buildFrame_foldl (l : List Nat) :
    ∀ n : Nat, n + 1 < l.length + 1 →
      (List.range n).foldl (fun a k => 2 * a + l.getD (k + 1) 0) 0 =
      ((l.drop 1).take n).foldl (fun a b => 2 * a + b) 0 := by
  intro n
  induction n with
  | zero => intro h; rfl
  | succ n ih =>
    intro h
    rw [List.range_succ, List.foldl_append,
      take_concat_getD 0 (l.drop 1) n (by simp; omega), List.foldl_append, ih (by omega)]
    simp only [List.foldl_cons, List.foldl_nil]
    rw [drop_one_getD]

/-- C9: for 34 structural bits with start and stop bits equal to 1, the
assembled frame is the fold of bits[1..32] most-significant bit first, and
the validator returns that frame exactly when its population count of set
bits is even, failing with `ParityError` when it is odd. -/
theorem c9_frame_assembly :
    ∀ bits : List Nat, bits.length = 34 → bits.getD 0 0 = 1 → bits.getD 33 0 = 1 →
      buildFrame bits = specFrameFold bits ∧
      (popcount (buildFrame bits) % 2 = 0 →
        validateBits bits = .ok (buildFrame bits, bits)) ∧
      (popcount (buildFrame bits) % 2 = 1 →
        validateBits bits = .error .parityError) := by
  intro bits hlen h0 h33
  refine ⟨?_, ?_, ?_⟩
  · unfold buildFrame specFrameFold
    exact buildFrame_foldl bits 32 (by omega)
  · intro hpar
    unfold validateBits
    rw [if_neg (fun hc => hc h0), if_neg (fun hc => hc h33)]
    dsimp only
    rw [if_neg (fun hc => hc hpar)]
  · intro hpar
    unfold validateBits
    rw [if_neg (fun hc => hc h0), if_neg (fun hc => hc h33)]
    dsimp only
    rw [if_pos (by rw [hpar]; decide)]

/-- Witness for C9: the all-zero frame (even parity) validates to frame 0,
and the frame with a single set bit (odd parity) fails with `ParityError`. -/
theorem c9_frame_assembly_witness :
    buildFrame (1 :: List.replicate 32 0 ++ [1]) =
      specFrameFold (1 :: List.replicate 32 0 ++ [1]) ∧
    validateBits (1 :: List.replicate 32 0 ++ [1]) =
      .ok (buildFrame (1 :: List.replicate 32 0 ++ [1]), 1 :: List.replicate 32 0 ++ [1]) ∧
    validateBits (1 :: 1 :: List.replicate 31 0 ++ [1]) = .error .parityError :=
  ⟨(c9_frame_assembly (1 :: List.replicate 32 0 ++ [1]) (by decide) (by decide)
      (by decide)).1,
   (c9_frame_assembly (1 :: List.replicate 32 0 ++ [1]) (by decide) (by decide)
      (by decide)).2.1 (by decide),
   (c9_frame_assembly (1 :: 1 :: List.replicate 31 0 ++ [1]) (by decide) (by decide)
      (by decide)).2.2 (by decide)⟩

/-! ### Claim C1, part 1: the synthesizer output and its collapse -/

theorem opt_bind_some {a b : Type} (x : a) (f : a → Option b) :
    (some x >>= f) = f x := rfl

theorem emitBit_halfPulses (halfUs b : Nat) :
    emitBit halfUs b = halfPulses halfUs (if b = 1 then [1, 0] else [0, 1]) := by
  unfold emitBit halfPulses
  split <;> rfl

theorem emit_flatten (halfUs : Nat) :
    ∀ bits : List Nat,
      ((bits.map (emitBit halfUs)).flatten) = halfPulses halfUs (manchesterHalves bits) := by
  intro bits
  induction bits with
  | nil => rfl
  | cons b r ih =>
    show emitBit halfUs b ++ (r.map (emitBit halfUs)).flatten =
      halfPulses halfUs (manchesterHalves (b :: r))
    rw [ih, emitBit_halfPulses]
    show _ = halfPulses halfUs ((if b = 1 then [1, 0] else [0, 1]) ++ manchesterHalves r)
    unfold halfPulses
    rw [List.map_append]

theorem collapseFrom_cons (p q : Pulse) (rest : List Pulse) :
    collapseFrom p (q :: rest) =
      if q.1 = p.1 then collapseFrom (p.1, p.2 + q.2) rest
      else p :: collapseFrom q rest := rfl

theorem collapseStep_concat (front : List Pulse) (p x : Pulse) :
    collapseStep (front ++ [p]) x =
      if p.1 ≠ x.1 then (front ++ [p]) ++ [x] else front ++ [(x.1, p.2 + x.2)] := by
  unfold collapseStep
  rw [List.getLast?_concat]
  show (if p.1 ≠ x.1 then (front ++ [p]) ++ [x]
    else (front ++ [p]).dropLast ++ [(x.1, p.2 + x.2)]) = _
  rw [List.dropLast_concat]

theorem collapse_fold_from :
    ∀ (xs : List Pulse) (p : Pulse) (front : List Pulse), (∀ x ∈ xs, x.2 ≠ 0) →
      List.foldlM (fun out q => if q.2 = 0 then none else some (collapseStep out q))
        (front ++ [p]) xs = some (front ++ collapseFrom p xs) := by
  intro xs
  induction xs with
  | nil => intro p front h; rfl
  | cons x t ih =>
    intro p front h
    have hx : x.2 ≠ 0 := h x (List.mem_cons_self x t)
    rw [List.foldlM_cons, if_neg hx, opt_bind_some, collapseStep_concat]
    by_cases hpx : p.1 ≠ x.1
    · rw [if_pos hpx]
      rw [ih x (front ++ [p]) (fun y hy => h y (List.mem_cons_of_mem x hy))]
      rw [List.append_assoc, collapseFrom_cons, if_neg (fun hc => hpx hc.symm)]
      rfl
    · rw [if_neg hpx]
      have hx1 : x.1 = p.1 := by
        by_contra hc
        exact hpx (fun h2 => hc h2.symm)
      rw [ih (x.1, p.2 + x.2) front (fun y hy => h y (List.mem_cons_of_mem x hy))]
      rw [collapseFrom_cons, if_pos hx1, hx1]

theorem collapse_runs_cons (p : Pulse) (ps : List Pulse) (hp : p.2 ≠ 0)
    (h : ∀ x ∈ ps, x.2 ≠ 0) : collapse_runs (p :: ps) = some (collapseFrom p ps) := by
  unfold collapse_runs
  rw [List.foldlM_cons, if_neg hp, opt_bind_some]
  have h0 : collapseStep [] p = [] ++ [p] := rfl
  rw [h0, collapse_fold_from ps p [] h]
  rfl

theorem collapseFrom_head :
    ∀ (xs : List Pulse) (p : Pulse), ∃ d2 r2, collapseFrom p xs = (p.1, d2) :: r2 := by
  intro xs
  induction xs with
  | nil => intro p; exact ⟨p.2, [], rfl⟩
  | cons q t ih =>
    intro p
    unfold collapseFrom
    by_cases hq : q.1 = p.1
    · rw [if_pos hq]
      obtain ⟨d2, r2, hr⟩ := ih (p.1, p.2 + q.2)
      exact ⟨d2, r2, hr⟩
    · rw [if_neg hq]
      exact ⟨p.2, collapseFrom q t, rfl⟩

/-! ### Claim C1, part 2: run structure of Manchester halves -/

theorem noTriple_tail : ∀ (x : Nat) (xs : List Nat), noTriple (x :: xs) → noTriple xs := by
  intro x xs h
  match xs with
  | [] => trivial
  | [a] => trivial
  | a :: b :: t => exact h.2

theorem noTriple_cons_cons (a b : Nat) (xs : List Nat) (hab : a ≠ b)
    (h : noTriple (b :: xs)) : noTriple (a :: b :: xs) := by
  match xs with
  | [] => trivial
  | c :: t => exact ⟨fun hc => hab hc.1, h⟩

theorem noTriple_cons_of_ne (y a b : Nat) (xs : List Nat) (hab : a ≠ b)
    (h : noTriple (a :: b :: xs)) : noTriple (y :: a :: b :: xs) :=
  ⟨fun hc => hab hc.2, h⟩

theorem manchesterHalves_cons (b : Nat) (r : List Nat) :
    manchesterHalves (b :: r) =
      (if b = 1 then 1 else 0) :: (if b = 1 then 0 else 1) :: manchesterHalves r := by
  show (if b = 1 then [1, 0] else [0, 1]) ++ manchesterHalves r = _
  split <;> rfl

theorem manchesterHalves_noTriple :
    ∀ bits : List Nat, noTriple (manchesterHalves bits) ∧
      ∀ y : Nat, noTriple (y :: manchesterHalves bits) := by
  intro bits
  induction bits with
  | nil => exact ⟨trivial, fun y => trivial⟩
  | cons b r ih =>
    rw [manchesterHalves_cons]
    by_cases hb : b = 1
    · rw [if_pos hb, if_pos hb]
      refine ⟨noTriple_cons_cons 1 0 _ (by decide) (ih.2 0), fun y => ?_⟩
      exact noTriple_cons_of_ne y 1 0 _ (by decide)
        (noTriple_cons_cons 1 0 _ (by decide) (ih.2 0))
    · rw [if_neg hb, if_neg hb]
      refine ⟨noTriple_cons_cons 0 1 _ (by decide) (ih.2 1), fun y => ?_⟩
      exact noTriple_cons_of_ne y 0 1 _ (by decide)
        (noTriple_cons_cons 0 1 _ (by decide) (ih.2 1))

theorem manchesterHalves_length :
    ∀ bits : List Nat, (manchesterHalves bits).length = 2 * bits.length := by
  intro bits
  induction bits with
  | nil => rfl
  | cons b r ih =>
    rw [manchesterHalves_cons]
    simp only [List.length_cons, ih]
    omega

/-! ### Claim C1, part 3: simulation of the decode loop on collapsed halves -/

theorem drop_cons_getD {α : Type} (d : α) :
    ∀ (l : List α) (i : Nat) (x : α) (t : List α), l.drop i = x :: t →
      l.getD i d = x ∧ l.drop (i + 1) = t ∧ i < l.length := by
  intro l
  induction l with
  | nil =>
    intro i x t h
    rw [List.drop_nil] at h
    exact absurd h (by simp)
  | cons a r ih =>
    intro i x t h
    cases i with
    | zero =>
      injection h with h1 h2
      subst h1
      subst h2
      exact ⟨rfl, rfl, by simp⟩
    | succ i =>
      have h2 := ih i x t h
      refine ⟨h2.1, h2.2.1, ?_⟩
      have h3 := h2.2.2
      simp only [List.length_cons]
      omega

theorem appendHalves_succ (hl : List Nat) (level n : Nat) :
    appendHalves hl level (n + 1) = appendCapped (appendHalves hl level n) level := by
  unfold appendHalves
  rw [List.range_succ, List.foldl_append]
  rfl

theorem appendHalves_exact (level : Nat) :
    ∀ (n : Nat) (hl : List Nat), hl.length + n ≤ 68 →
      appendHalves hl level n = hl ++ List.replicate n level := by
  intro n
  induction n with
  | zero => intro hl h; simp [appendHalves]
  | succ n ih =>
    intro hl h
    rw [appendHalves_succ, ih hl (by omega)]
    unfold appendCapped
    rw [if_pos (by simp; omega)]
    rw [List.append_assoc]
    rw [show List.replicate n level ++ [level] = List.replicate (n + 1) level from
      (List.replicate_succ' n level).symm]

theorem decode_sim :
    ∀ (hs : List Nat) (ints : List Pulse) (i : Nat) (hl : List Nat) (l k : Nat),
      ints.drop i = collapseFrom (l, 500 * k) (halfPulses 500 hs) →
      (k = 1 ∨ k = 2) →
      noTriple (List.replicate k l ++ hs) →
      hl.length + k + hs.length = 68 →
      decodeLoop ints i hl = .ok (hl ++ List.replicate k l ++ hs) := by
  intro hs
  induction hs with
  | nil =>
    intro ints i hl l k hdrop hk hnt hlen
    have hk1 : 1 ≤ k := by rcases hk with rfl | rfl <;> omega
    have hdrop2 : ints.drop i = [(l, 500 * k)] := hdrop
    obtain ⟨hget, hdrop3, hilt⟩ := drop_cons_getD (0, 0) ints i _ _ hdrop2
    have hlev : getLevel ints i = l := by unfold getLevel; rw [hget]
    have hdur : getDur ints i = 500 * k := by unfold getDur; rw [hget]
    have hlen2 : ints.length ≤ i + 1 := by
      by_contra hc
      have : ints.drop (i + 1) ≠ [] := by
        intro hnil
        rw [List.drop_eq_nil_iff_le] at hnil
        omega
      exact this hdrop3
    simp only [List.length_nil] at hlen
    rw [decodeLoop_eq, if_pos ⟨hilt, by omega⟩]
    rw [if_neg (by rw [hdur]; unfold GLITCH_MAX_US; omega)]
    dsimp only
    have hmr : mergeRun ints i (getLevel ints i) (getDur ints i) = (i, 500 * k) := by
      rw [mergeRun_eq, if_neg (fun hc => absurd hc.1 (by omega)), hdur]
    rw [hmr]
    dsimp only
    rw [if_neg (fun hc => absurd hc.1 (by omega))]
    rcases hk with rfl | rfl
    · rw [show classifyDur (500 * 1) = Except.ok 1 from rfl]
      dsimp only
      rw [hlev, appendHalves_exact l 1 hl (by omega)]
      rw [decodeLoop_eq, if_neg (fun hc => absurd hc.2 (by simp; omega))]
      simp
    · rw [show classifyDur (500 * 2) = Except.ok 2 from rfl]
      dsimp only
      rw [hlev, appendHalves_exact l 2 hl (by omega)]
      rw [decodeLoop_eq, if_neg (fun hc => absurd hc.2 (by simp; omega))]
      simp
  | cons h0 t ih =>
    intro ints i hl l k hdrop hk hnt hlen
    have hk1 : 1 ≤ k := by rcases hk with rfl | rfl <;> omega
    simp only [List.length_cons] at hlen
    by_cases hh : h0 = l
    · subst hh
      rcases hk with rfl | rfl
      · have hdrop2 : ints.drop i = collapseFrom (h0, 500 * 2) (halfPulses 500 t) := by
          rw [hdrop, show halfPulses 500 (h0 :: t) = (h0, 500) :: halfPulses 500 t from rfl,
            collapseFrom_cons, if_pos rfl]
          norm_num
        have hnt2 : noTriple (List.replicate 2 h0 ++ t) := by
          have he : List.replicate 1 h0 ++ (h0 :: t) = List.replicate 2 h0 ++ t := by
            simp [List.replicate]
          rwa [he] at hnt
        have hgoal := ih ints i hl h0 2 hdrop2 (Or.inr rfl) hnt2 (by omega)
        rw [hgoal]
        simp [List.replicate]
      · exfalso
        have hbad : noTriple (h0 :: h0 :: h0 :: t) := by
          simpa [List.replicate] using hnt
        exact hbad.1 ⟨rfl, rfl⟩
    · have hdrop2 : ints.drop i =
          (l, 500 * k) :: collapseFrom (h0, 500) (halfPulses 500 t) := by
        rw [hdrop, show halfPulses 500 (h0 :: t) = (h0, 500) :: halfPulses 500 t from rfl,
          collapseFrom_cons, if_neg hh]
      obtain ⟨hget, hdrop3, hilt⟩ := drop_cons_getD (0, 0) ints i _ _ hdrop2
      have hlev : getLevel ints i = l := by unfold getLevel; rw [hget]
      have hdur : getDur ints i = 500 * k := by unfold getDur; rw [hget]
      obtain ⟨d2, r2, hhead⟩ := collapseFrom_head (halfPulses 500 t) (h0, 500)
      have hdrop4 : ints.drop (i + 1) = (h0, d2) :: r2 := by
        rw [hdrop3, hhead]
      obtain ⟨hget2, hdrop5, hilt2⟩ := drop_cons_getD (0, 0) ints (i + 1) _ _ hdrop4
      have hlev2 : getLevel ints (i + 1) = h0 := by unfold getLevel; rw [hget2]
      rw [decodeLoop_eq, if_pos ⟨hilt, by omega⟩]
      rw [if_neg (by rw [hdur]; unfold GLITCH_MAX_US; omega)]
      dsimp only
      have hmr : mergeRun ints i (getLevel ints i) (getDur ints i) = (i, 500 * k) := by
        rw [mergeRun_eq,
          if_neg (fun hc => hh (by
            have h3 := hc.2
            rw [hlev2, hlev] at h3
            exact h3)), hdur]
      rw [hmr]
      dsimp only
      rw [if_neg (fun hc => hh (by
        have h3 := hc.2.1
        rw [hlev2, hlev] at h3
        exact h3))]
      have hnt2 : noTriple (List.replicate 1 h0 ++ t) := by
        show noTriple (h0 :: t)
        rcases hk with rfl | rfl
        · exact noTriple_tail l _ (by simpa [List.replicate] using hnt)
        · exact noTriple_tail l _ (noTriple_tail l _ (by simpa [List.replicate] using hnt))
      have hdropr : ints.drop (i + 1) = collapseFrom (h0, 500 * 1) (halfPulses 500 t) := by
        rw [hdrop3]
      rcases hk with rfl | rfl
      · rw [show classifyDur (500 * 1) = Except.ok 1 from rfl]
        dsimp only
        rw [hlev, appendHalves_exact l 1 hl (by omega)]
        have hrec := ih ints (i + 1) (hl ++ List.replicate 1 l) h0 1 hdropr (Or.inl rfl)
          hnt2 (by simp [List.replicate]; omega)
        rw [hrec]
        simp [List.replicate]
      · rw [show classifyDur (500 * 2) = Except.ok 2 from rfl]
        dsimp only
        rw [hlev, appendHalves_exact l 2 hl (by omega)]
        have hrec := ih ints (i + 1) (hl ++ List.replicate 2 l) h0 1 hdropr (Or.inl rfl)
          hnt2 (by simp [List.replicate]; omega)
        rw [hrec]
        simp [List.replicate]

/-! ### Claim C1, part 4: bit recovery and frame rebuild -/

theorem exc_bind_pure {e a b : Type} (x : a) (f : a → Except e b) :
    (pure x : Except e a) >>= f = f x := rfl

theorem mbLoop_shift (a c : Nat) (rest : List Nat) :
    ∀ n : Nat, mbLoop (a :: c :: rest) (n + 1) =
      (pairBit a c >>= fun v => mbLoop rest n >>= fun bits => pure (v :: bits)) := by
  intro n
  induction n with
  | zero =>
    cases hp : pairBit a c with
    | error e => simp [mbLoop, hp, exc_bind_ok, exc_bind_error]
    | ok v => simp [mbLoop, hp, exc_bind_ok, exc_bind_error]
  | succ n ih =>
    rw [mbLoop, ih]
    conv_rhs => rw [mbLoop]
    have e1 : 2 * (n + 1) = 2 * n + 1 + 1 := by ring
    rw [e1]
    simp only [List.getD_cons_succ]
    cases hp : pairBit a c with
    | error e => simp only [exc_bind_error]
    | ok v =>
      simp only [exc_bind_ok]
      cases hm : mbLoop rest n with
      | error e => simp only [exc_bind_error]
      | ok bits =>
        simp only [exc_bind_ok, exc_bind_pure]
        cases hp2 : pairBit (rest.getD (2 * n) 0) (rest.getD (2 * n + 1) 0) with
        | error e => simp only [exc_bind_error]
        | ok b =>
          simp only [exc_bind_ok, exc_bind_pure]
          rfl

theorem mbLoop_manchester :
    ∀ bits : List Nat, (∀ b ∈ bits, b = 0 ∨ b = 1) →
      mbLoop (manchesterHalves bits) bits.length = .ok bits := by
  intro bits
  induction bits with
  | nil => intro h; rfl
  | cons b r ih =>
    intro h
    have hb := h b (List.mem_cons_self b r)
    have hr : ∀ x ∈ r, x = 0 ∨ x = 1 := fun x hx => h x (List.mem_cons_of_mem b hx)
    rw [manchesterHalves_cons]
    rcases hb with rfl | rfl
    · rw [if_neg (by decide), if_neg (by decide)]
      show mbLoop (0 :: 1 :: manchesterHalves r) (r.length + 1) = .ok (0 :: r)
      rw [mbLoop_shift, show pairBit 0 1 = Except.ok 0 from rfl, exc_bind_ok, ih hr,
        exc_bind_ok]
      rfl
    · rw [if_pos rfl, if_pos rfl]
      show mbLoop (1 :: 0 :: manchesterHalves r) (r.length + 1) = .ok (1 :: r)
      rw [mbLoop_shift, show pairBit 1 0 = Except.ok 1 from rfl, exc_bind_ok, ih hr,
        exc_bind_ok]
      rfl

theorem getD_map_range (f : Nat → Nat) (d : Nat) (n k : Nat) (h : k < n) :
    ((List.range n).map f).getD k d = f k := by
  rw [List.getD_eq_getElem?_getD, List.getElem?_map, List.getElem?_range h]
  rfl

theorem frame_shift_fold (F : Nat) (hF : F < 2 ^ 32) :
    ∀ n : Nat, n ≤ 32 →
      (List.range n).foldl (fun a k => 2 * a + (F >>> (31 - k) &&& 1)) 0 =
        F >>> (32 - n) := by
  intro n
  induction n with
  | zero =>
    intro h
    show (0 : Nat) = F >>> 32
    rw [Nat.shiftRight_eq_div_pow]
    exact (Nat.div_eq_of_lt hF).symm
  | succ n ih =>
    intro h
    rw [List.range_succ, List.foldl_append, ih (by omega)]
    simp only [List.foldl_cons, List.foldl_nil]
    have h1 : 32 - n = (31 - n) + 1 := by omega
    have h2 : 32 - (n + 1) = 31 - n := by omega
    rw [h2, h1, Nat.shiftRight_succ, Nat.and_one_is_mod]
    omega

theorem buildFrame_frameBits (F : Nat) (hF : F < 2 ^ 32) :
    buildFrame (1 :: (frameBits F ++ [1])) = F := by
  unfold buildFrame
  have hfb : (frameBits F).length = 32 := by simp [frameBits]
  have hext : ∀ a : Nat, ∀ k ∈ List.range 32,
      2 * a + (1 :: (frameBits F ++ [1])).getD (k + 1) 0 =
      2 * a + (F >>> (31 - k) &&& 1) := by
    intro a k hk
    have hk32 : k < 32 := List.mem_range.mp hk
    have hgd : (1 :: (frameBits F ++ [1])).getD (k + 1) 0 = (frameBits F).getD k 0 := by
      show (frameBits F ++ [1]).getD k 0 = _
      exact getD_append_left 0 (frameBits F) [1] k (by omega)
    rw [hgd]
    unfold frameBits
    rw [getD_map_range _ 0 32 k hk32]
  have hfold : List.foldl (fun a k => 2 * a + (1 :: (frameBits F ++ [1])).getD (k + 1) 0) 0
      (List.range 32) =
      List.foldl (fun a k => 2 * a + (F >>> (31 - k) &&& 1)) 0 (List.range 32) :=
    @List.foldl_ext _ _ _ _ 0 (List.range 32) hext
  rw [hfold, frame_shift_fold F hF 32 (by omega)]
  simp

theorem frameBits_binary (F : Nat) : ∀ b ∈ 1 :: (frameBits F ++ [1]), b = 0 ∨ b = 1 := by
  intro b hb
  rcases List.mem_cons.mp hb with rfl | hb2
  · right; rfl
  · rcases List.mem_append.mp hb2 with hb3 | hb3
    · unfold frameBits at hb3
      obtain ⟨k, hk, rfl⟩ := List.mem_map.mp hb3
      rw [Nat.and_one_is_mod]
      omega
    · rw [List.mem_singleton.mp hb3]
      right; rfl

theorem finalizeHalves_68 (hl : List Nat) (h : hl.length = 68) :
    finalizeHalves hl = .ok hl := by
  have hcond : ¬(hl.length = 67 ∧ hl.getD 66 0 = 1) := fun hc => by omega
  unfold finalizeHalves
  rw [if_neg hcond, if_pos h]

/-- C1: for every 32-bit frame with an even population count, synthesizing
the idealized pulse stream (500µs halves, no jitter, any idle of at least
one half-bit), collapsing the runs and decoding recovers exactly the frame
(with its 34 structural bits). -/
theorem c1_round_trip :
    ∀ (F idle : Nat), F < 2 ^ 32 → popcount F % 2 = 0 → 500 ≤ idle →
      ((emit_halfbit_stream F 500 idle).bind collapse_runs).map decode_opentherm =
        some (.ok (F, 1 :: (frameBits F ++ [1]))) := by
  intro F idle hF hpar hidle
  have hFle : F ≤ 0xFFFFFFFF := by
    have h32 : (2 : Nat) ^ 32 = 4294967296 := by norm_num
    omega
  have hfb : (frameBits F).length = 32 := by simp [frameBits]
  have hmh : manchesterHalves (1 :: (frameBits F ++ [1])) =
      1 :: 0 :: manchesterHalves (frameBits F ++ [1]) := by
    rw [manchesterHalves_cons, if_pos rfl, if_pos rfl]
  have hmhlen : (manchesterHalves (frameBits F ++ [1])).length = 66 := by
    rw [manchesterHalves_length]
    simp [hfb]
  -- the emitted stream
  unfold emit_halfbit_stream
  rw [if_pos hFle, emit_flatten]
  have hne : ∀ x ∈ halfPulses 500 (manchesterHalves (1 :: (frameBits F ++ [1]))), x.2 ≠ 0 := by
    intro x hx
    obtain ⟨a, ha, rfl⟩ := List.mem_map.mp hx
    show (500 : Nat) ≠ 0
    decide
  show (collapse_runs ((0, idle) ::
      halfPulses 500 (manchesterHalves (1 :: (frameBits F ++ [1]))))).map decode_opentherm = _
  rw [collapse_runs_cons _ _ (by show idle ≠ 0; omega) hne]
  show some (decode_opentherm (collapseFrom (0, idle)
      (halfPulses 500 (manchesterHalves (1 :: (frameBits F ++ [1])))))) = _
  have hcf : collapseFrom (0, idle)
      (halfPulses 500 (manchesterHalves (1 :: (frameBits F ++ [1])))) =
      (0, idle) :: collapseFrom (1, 500)
        (halfPulses 500 (0 :: manchesterHalves (frameBits F ++ [1]))) := by
    rw [hmh]
    show collapseFrom (0, idle) ((1, 500) ::
      halfPulses 500 (0 :: manchesterHalves (frameBits F ++ [1]))) = _
    rw [collapseFrom_cons, if_neg (fun hc => Nat.one_ne_zero hc)]
  rw [hcf]
  -- decode: no start fix, then the loop simulation
  have hcoll : collectHalves ((0, idle) :: collapseFrom (1, 500)
      (halfPulses 500 (0 :: manchesterHalves (frameBits F ++ [1])))) =
      .ok (manchesterHalves (1 :: (frameBits F ++ [1]))) := by
    unfold collectHalves
    rw [if_neg (fun hc => absurd hc.2.1 (show (0 : Nat) ≠ 1 by decide))]
    have hdropS : ((0, idle) :: collapseFrom (1, 500)
        (halfPulses 500 (0 :: manchesterHalves (frameBits F ++ [1])))).drop 1 =
        collapseFrom (1, 500 * 1)
          (halfPulses 500 (0 :: manchesterHalves (frameBits F ++ [1]))) := rfl
    have hnt : noTriple (List.replicate 1 1 ++
        (0 :: manchesterHalves (frameBits F ++ [1]))) := by
      have h1 := (manchesterHalves_noTriple (1 :: (frameBits F ++ [1]))).1
      rw [hmh] at h1
      simpa [List.replicate] using h1
    have hsim := decode_sim (0 :: manchesterHalves (frameBits F ++ [1])) _ 1 [] 1 1 hdropS
      (Or.inl rfl) hnt (by simp [hmhlen])
    rw [hsim, hmh]
    simp [List.replicate]
  unfold decode_opentherm preprocessOT
  rw [hcoll, exc_bind_ok,
    finalizeHalves_68 _ (by rw [manchesterHalves_length]; simp [hfb]), exc_bind_ok]
  have hdm : decodeManchester (manchesterHalves (1 :: (frameBits F ++ [1]))) =
      .ok (1 :: (frameBits F ++ [1])) := by
    unfold decodeManchester
    have hblen : (1 :: (frameBits F ++ [1])).length = 34 := by simp [hfb]
    rw [show (34 : Nat) = (1 :: (frameBits F ++ [1])).length from hblen.symm]
    exact mbLoop_manchester _ (frameBits_binary F)
  rw [hdm, exc_bind_ok]
  have h33 : (1 :: (frameBits F ++ [1])).getD 33 0 = 1 := by
    show (frameBits F ++ [1]).getD 32 0 = 1
    rw [show (32 : Nat) = (frameBits F).length from hfb.symm]
    exact getD_concat_self 0 (frameBits F) 1
  unfold validateBits
  rw [if_neg (fun hc => hc rfl), if_neg (fun hc => hc h33)]
  dsimp only
  rw [buildFrame_frameBits F hF, if_neg (fun hc => hc hpar)]

set_option maxRecDepth 200000 in
/-- Witness for C1: the concrete frame 0x80190000 (even population count)
round-trips exactly with a 5000µs idle. -/
theorem c1_round_trip_witness :
    ((emit_halfbit_stream 0x80190000 500 5000).bind collapse_runs).map decode_opentherm =
      some (.ok (0x80190000, 1 :: frameBits 0x80190000 ++ [1])) :=
  c1_round_trip 0x80190000 5000 (by norm_num) (by decide) (by norm_num)

/-! ### Claim C6: dropping an isolated glitch -/

theorem eraseIdx_getD_lt {α : Type} (d : α) :
    ∀ (l : List α) (g k : Nat), k < g → (l.eraseIdx g).getD k d = l.getD k d := by
  intro l
  induction l with
  | nil => intro g k h; rfl
  | cons a t ih =>
    intro g k h
    cases g with
    | zero => exact absurd h (by omega)
    | succ g =>
      cases k with
      | zero => rfl
      | succ k => exact ih g k (by omega)

theorem eraseIdx_getD_ge {α : Type} (d : α) :
    ∀ (l : List α) (g k : Nat), g < l.length → g ≤ k →
      (l.eraseIdx g).getD k d = l.getD (k + 1) d := by
  intro l
  induction l with
  | nil => intro g k h hk; exact absurd h (by simp)
  | cons a t ih =>
    intro g k h hk
    cases g with
    | zero => rfl
    | succ g =>
      cases k with
      | zero => exact absurd hk (by omega)
      | succ k =>
        show (t.eraseIdx g).getD k d = t.getD (k + 1) d
        exact ih g k (by simp only [List.length_cons] at h; omega) (by omega)

theorem eraseIdx_len {α : Type} :
    ∀ (l : List α) (g : Nat), g < l.length → (l.eraseIdx g).length + 1 = l.length := by
  intro l
  induction l with
  | nil => intro g h; exact absurd h (by simp)
  | cons a t ih =>
    intro g h
    cases g with
    | zero => rfl
    | succ g =>
      show (a :: t.eraseIdx g).length + 1 = (a :: t).length
      simp only [List.length_cons]
      rw [ih g (by simp only [List.length_cons] at h; omega)]

section C6Align

variable (S : List Pulse) (g : Nat)

theorem c6lev_lt (k : Nat) (hk : k < g) : getLevel (S.eraseIdx g) k = getLevel S k := by
  unfold getLevel
  rw [eraseIdx_getD_lt (0, 0) S g k hk]

theorem c6dur_lt (k : Nat) (hk : k < g) : getDur (S.eraseIdx g) k = getDur S k := by
  unfold getDur
  rw [eraseIdx_getD_lt (0, 0) S g k hk]

theorem c6lev_ge (hg : g < S.length) (k : Nat) (hk : g ≤ k) :
    getLevel (S.eraseIdx g) k = getLevel S (k + 1) := by
  unfold getLevel
  rw [eraseIdx_getD_ge (0, 0) S g k hg hk]

theorem c6dur_ge (hg : g < S.length) (k : Nat) (hk : g ≤ k) :
    getDur (S.eraseIdx g) k = getDur S (k + 1) := by
  unfold getDur
  rw [eraseIdx_getD_ge (0, 0) S g k hg hk]

theorem c6_merge_align (hg : g < S.length) (hG1 : 1 ≤ g) :
    ∀ (n j l d : Nat), S.length - j ≤ n → g + 1 ≤ j →
      mergeRun S j l d =
        ((mergeRun (S.eraseIdx g) (j - 1) l d).1 + 1,
         (mergeRun (S.eraseIdx g) (j - 1) l d).2) := by
  have hlen2 := eraseIdx_len S g hg
  intro n
  induction n with
  | zero =>
    intro j l d hn hj
    rw [mergeRun_eq, if_neg (fun hc => by omega)]
    rw [mergeRun_eq (S.eraseIdx g), if_neg (fun hc => by
      have hc1 := hc.1
      omega)]
    show (j, d) = (j - 1 + 1, d)
    rw [show j - 1 + 1 = j from by omega]
  | succ n ih =>
    intro j l d hn hj
    have hj1 : j - 1 + 1 = j := by omega
    by_cases hc : j + 1 < S.length ∧ getLevel S (j + 1) = l
    · have hcE : j - 1 + 1 < (S.eraseIdx g).length ∧
          getLevel (S.eraseIdx g) (j - 1 + 1) = l := by
        constructor
        · omega
        · rw [hj1, c6lev_ge S g hg j (by omega)]
          exact hc.2
      have hbreak_iff : flipBreakCond S j l ↔ flipBreakCond (S.eraseIdx g) (j - 1) l := by
        unfold flipBreakCond
        rw [hj1, show j - 1 + 2 = j + 1 from by omega, show j - 1 + 3 = j + 2 from by omega]
        rw [c6dur_ge S g hg j (by omega), c6dur_ge S g hg (j + 1) (by omega),
          c6lev_ge S g hg (j + 1) (by omega), c6lev_ge S g hg (j + 2) (by omega)]
        constructor
        · rintro ⟨h1, h2, h3, h4, h5, h6, h7⟩
          exact ⟨h1, h2, by omega, h4, h5, by omega, h7⟩
        · rintro ⟨h1, h2, h3, h4, h5, h6, h7⟩
          exact ⟨h1, h2, by omega, h4, h5, by omega, h7⟩
      rw [mergeRun_eq, if_pos hc, mergeRun_eq (S.eraseIdx g), if_pos hcE]
      by_cases hb : flipBreakCond S j l
      · rw [if_pos hb, if_pos (hbreak_iff.mp hb)]
        show (j, d) = (j - 1 + 1, d)
        rw [hj1]
      · rw [if_neg hb, if_neg (fun hbe => hb (hbreak_iff.mpr hbe))]
        rw [hj1, c6dur_ge S g hg j (by omega)]
        exact ih (j + 1) l (d + getDur S (j + 1)) (by omega) (by omega)
    · have hcE : ¬(j - 1 + 1 < (S.eraseIdx g).length ∧
          getLevel (S.eraseIdx g) (j - 1 + 1) = l) := by
        intro hce
        refine hc ⟨by omega, ?_⟩
        have h2 := hce.2
        rw [hj1, c6lev_ge S g hg j (by omega)] at h2
        exact h2
      rw [mergeRun_eq, if_neg hc, mergeRun_eq (S.eraseIdx g), if_neg hcE]
      show (j, d) = (j - 1 + 1, d)
      rw [hj1]

set_option maxHeartbeats 1000000 in
theorem c6_loop_align (hg : g < S.length) (hG1 : 1 ≤ g)
    (hnext : GLITCH_MAX_US ≤ getDur S (g + 1)) :
    ∀ (n j : Nat) (hl : List Nat), S.length - j ≤ n → g + 1 ≤ j →
      decodeLoop S j hl = decodeLoop (S.eraseIdx g) (j - 1) hl := by
  have hlen2 := eraseIdx_len S g hg
  intro n
  induction n with
  | zero =>
    intro j hl hn hj
    rw [decodeLoop_eq, if_neg (fun hc => by have := hc.1; omega)]
    rw [decodeLoop_eq (S.eraseIdx g), if_neg (fun hc => by have := hc.1; omega)]
  | succ n ih =>
    intro j hl hn hj
    have hj1 : j - 1 + 1 = j := by omega
    by_cases hcond : j < S.length ∧ hl.length < 68
    · have hcondE : j - 1 < (S.eraseIdx g).length ∧ hl.length < 68 :=
        ⟨by omega, hcond.2⟩
      rw [decodeLoop_eq, if_pos hcond, decodeLoop_eq (S.eraseIdx g), if_pos hcondE]
      have hdur_j : getDur (S.eraseIdx g) (j - 1) = getDur S j := by
        rw [c6dur_ge S g hg (j - 1) (by omega), hj1]
      have hlev_j : getLevel (S.eraseIdx g) (j - 1) = getLevel S j := by
        rw [c6lev_ge S g hg (j - 1) (by omega), hj1]
      by_cases hgl2 : getDur S j < GLITCH_MAX_US
      · have hjg2 : g + 2 ≤ j := by
          rcases Nat.lt_or_ge j (g + 2) with hlt | hge
          · have hjeq : j = g + 1 := by omega
            rw [hjeq] at hgl2
            exact absurd hgl2 (by omega)
          · exact hge
        rw [if_pos hgl2, if_pos (by rw [hdur_j]; exact hgl2)]
        have hres : restoreCond S j hl ↔ restoreCond (S.eraseIdx g) (j - 1) hl := by
          unfold restoreCond
          rw [hj1, c6lev_ge S g hg j (by omega), c6dur_ge S g hg j (by omega),
            c6lev_ge S g hg (j - 1) (by omega), hj1]
          constructor
          · rintro ⟨h1, h2, h3, h4, h5⟩
            exact ⟨h1, by omega, h3, h4, h5⟩
          · rintro ⟨h1, h2, h3, h4, h5⟩
            exact ⟨h1, by omega, h3, h4, h5⟩
        have hpop : popCond S j hl ↔ popCond (S.eraseIdx g) (j - 1) hl := by
          unfold popCond
          rw [show j - 1 - 1 = j - 2 from by omega, c6dur_ge S g hg (j - 2) (by omega),
            show j - 2 + 1 = j - 1 from by omega]
          constructor
          · rintro ⟨h1, h2, h3, h4, h5⟩
            exact ⟨by omega, h2, h3, h4, h5⟩
          · rintro ⟨h1, h2, h3, h4, h5⟩
            exact ⟨by omega, h2, h3, h4, h5⟩
        have hglp : glitchProcess S j hl = glitchProcess (S.eraseIdx g) (j - 1) hl := by
          unfold glitchProcess
          by_cases hr : restoreCond S j hl
          · rw [if_pos hr, if_pos (hres.mp hr), hlev_j]
            by_cases hp : popCond S j hl
            · rw [if_pos hp, if_pos (hpop.mp hp)]
            · rw [if_neg hp, if_neg (fun hpe => hp (hpop.mpr hpe))]
          · rw [if_neg hr, if_neg (fun hre => hr (hres.mpr hre))]
        rw [hglp, hj1]
        exact ih (j + 1) _ (by omega) (by omega)
      · rw [if_neg hgl2]
        dsimp only
        rw [hlev_j, hdur_j]
        rw [if_neg hgl2]
        have hmr := c6_merge_align S g hg hG1 S.length j (getLevel S j) (getDur S j)
          (by omega) hj
        have hrge0 : j - 1 ≤ (mergeRun (S.eraseIdx g) (j - 1) (getLevel S j)
            (getDur S j)).1 := mergeRunF_ge _ _ _ _ _
        generalize hr : mergeRun (S.eraseIdx g) (j - 1) (getLevel S j) (getDur S j) = r
        rw [hr] at hmr hrge0
        have hrge : j - 1 ≤ r.1 := hrge0
        rw [hmr]
        dsimp only
        have hfe : flipEmitCond S (r.1 + 1) (getLevel S j) ↔
            flipEmitCond (S.eraseIdx g) r.1 (getLevel S j) := by
          unfold flipEmitCond
          rw [show r.1 + 1 + 1 = r.1 + 2 from by omega,
            show r.1 + 1 + 2 = r.1 + 3 from by omega,
            c6lev_ge S g hg (r.1 + 1) (by omega), c6dur_ge S g hg (r.1 + 1) (by omega),
            c6lev_ge S g hg (r.1 + 2) (by omega), c6dur_ge S g hg (r.1 + 2) (by omega)]
          constructor
          · rintro ⟨h1, h2, h3, h4, h5, h6⟩
            exact ⟨by omega, h2, h3, h4, h5, h6⟩
          · rintro ⟨h1, h2, h3, h4, h5, h6⟩
            exact ⟨by omega, h2, h3, h4, h5, h6⟩
        by_cases hfc : flipEmitCond S (r.1 + 1) (getLevel S j)
        · rw [if_pos hfc, if_pos (hfe.mp hfc)]
          cases hcl : classifyDur r.2 with
          | error e => rfl
          | ok halves =>
            dsimp only
            have hfa : flipAppend S (r.1 + 1) (appendHalves hl (getLevel S j) halves) =
                flipAppend (S.eraseIdx g) r.1 (appendHalves hl (getLevel S j) halves) := by
              unfold flipAppend
              rw [show r.1 + 1 + 1 = r.1 + 2 from by omega,
                show r.1 + 1 + 2 = r.1 + 3 from by omega,
                c6lev_ge S g hg (r.1 + 2) (by omega), c6dur_ge S g hg (r.1 + 1) (by omega),
                c6dur_ge S g hg (r.1 + 2) (by omega)]
            rw [hfa]
            have hk := ih (r.1 + 4)
              (flipAppend (S.eraseIdx g) r.1 (appendHalves hl (getLevel S j) halves))
              (by omega) (by omega)
            rw [show r.1 + 4 - 1 = r.1 + 3 from by omega] at hk
            rw [show r.1 + 1 + 3 = r.1 + 4 from by omega, hk]
        · rw [if_neg hfc, if_neg (fun hn2 => hfc (hfe.mpr hn2))]
          cases hcl : classifyDur r.2 with
          | error e => rfl
          | ok halves =>
            dsimp only
            have hk := ih (r.1 + 2) (appendHalves hl (getLevel S j) halves)
              (by omega) (by omega)
            rw [show r.1 + 2 - 1 = r.1 + 1 from by omega] at hk
            rw [show r.1 + 1 + 1 = r.1 + 2 from by omega, hk]
    · rw [decodeLoop_eq, if_neg hcond, decodeLoop_eq (S.eraseIdx g),
        if_neg (fun hc => hcond ⟨by omega, hc.2⟩)]

end C6Align

section C6Prefix

variable (S : List Pulse) (g : Nat)

theorem c6_handoff (hg : g < S.length) (hG1 : 1 ≤ g) (hGlen : g + 1 < S.length)
    (hgl : getDur S g < GLITCH_MAX_US)
    (hnext : GLITCH_MAX_US ≤ getDur S (g + 1))
    (hlevnext : getLevel S (g + 1) = getLevel S g) :
    ∀ hl : List Nat, decodeLoop S g hl = decodeLoop (S.eraseIdx g) g hl := by
  have hlen2 := eraseIdx_len S g hg
  intro hl
  by_cases hcond : g < S.length ∧ hl.length < 68
  · rw [decodeLoop_eq, if_pos hcond, if_pos hgl]
    have hres : ¬restoreCond S g hl := by
      rintro ⟨h1, h2, h3, h4, h5⟩
      rw [hlevnext] at h3
      exact h5 h3.symm
    have hglp : glitchProcess S g hl = hl := by
      unfold glitchProcess
      rw [if_neg hres]
    rw [hglp]
    have halign := c6_loop_align S g hg hG1 hnext S.length (g + 1) hl (by omega) (by omega)
    rw [show g + 1 - 1 = g from by omega] at halign
    exact halign
  · rw [decodeLoop_eq, if_neg hcond, decodeLoop_eq (S.eraseIdx g),
      if_neg (fun hc => hcond ⟨by omega, hc.2⟩)]

theorem c6_merge_prefix (hg : g < S.length) (hG1 : 1 ≤ g) (hGlen : g + 1 < S.length)
    (hgl : getDur S g < GLITCH_MAX_US)
    (hprev : GLITCH_MAX_US ≤ getDur S (g - 1))
    (hnext : GLITCH_MAX_US ≤ getDur S (g + 1))
    (hlevprev : getLevel S (g - 1) ≠ getLevel S g)
    (hlevnext : getLevel S (g + 1) = getLevel S g) :
    ∀ (n j l d : Nat), S.length - j ≤ n → j < g → getLevel S j = l →
      mergeRun S j l d = mergeRun (S.eraseIdx g) j l d ∧
      (mergeRun S j l d).1 < g ∧
      getLevel S (mergeRun S j l d).1 = l ∧
      (flipEmitCond S (mergeRun S j l d).1 l ↔
        flipEmitCond (S.eraseIdx g) (mergeRun S j l d).1 l) ∧
      (flipEmitCond S (mergeRun S j l d).1 l → (mergeRun S j l d).1 + 3 ≤ g) := by
  have hlen2 := eraseIdx_len S g hg
  intro n
  induction n with
  | zero =>
    intro j l d hn hj hinv
    exact absurd hn (by omega)
  | succ n ih =>
    intro j l d hn hj hinv
    have hCiff : (j + 1 < S.length ∧ getLevel S (j + 1) = l) ↔
        (j + 1 < (S.eraseIdx g).length ∧ getLevel (S.eraseIdx g) (j + 1) = l) := by
      rcases Nat.lt_or_ge (j + 1) g with hlt | hge
      · rw [c6lev_lt S g (j + 1) hlt]
        constructor
        · rintro ⟨h1, h2⟩; exact ⟨by omega, h2⟩
        · rintro ⟨h1, h2⟩; exact ⟨by omega, h2⟩
      · have hje : j + 1 = g := by omega
        rw [hje, c6lev_ge S g hg g (by omega), hlevnext]
        constructor
        · rintro ⟨h1, h2⟩; exact ⟨by omega, h2⟩
        · rintro ⟨h1, h2⟩; exact ⟨by omega, h2⟩
    by_cases hCS : j + 1 < S.length ∧ getLevel S (j + 1) = l
    · -- the run continues; j ≤ g - 2 because of the level mismatch at g
      have hjg2 : j + 2 ≤ g := by
        rcases Nat.lt_or_ge (j + 1) g with hlt | hge
        · omega
        · exfalso
          have hje : j + 1 = g := by omega
          have h2 := hCS.2
          rw [hje] at h2
          have hj2 : j = g - 1 := by omega
          rw [hj2] at hinv
          exact hlevprev (hinv.trans h2.symm)
      have hbreak_iff : flipBreakCond S j l ↔ flipBreakCond (S.eraseIdx g) j l := by
        rcases Nat.lt_or_ge (j + 3) g with h3lt | h3ge
        · -- all reads below g
          unfold flipBreakCond
          rw [c6dur_lt S g (j + 1) (by omega), c6dur_lt S g (j + 2) (by omega),
            c6lev_lt S g (j + 2) (by omega), c6lev_lt S g (j + 3) h3lt]
          constructor
          · rintro ⟨h1, h2, h3, h4, h5, h6, h7⟩
            exact ⟨h1, h2, by omega, h4, h5, by omega, h7⟩
          · rintro ⟨h1, h2, h3, h4, h5, h6, h7⟩
            exact ⟨h1, h2, by omega, h4, h5, by omega, h7⟩
        · rcases Nat.lt_or_ge (j + 3) (g + 1) with h3eq | h3gt
          · -- j + 3 = g: only the level of pulse g is read beyond the erase point
            have hje : j + 3 = g := by omega
            unfold flipBreakCond
            rw [hje, c6dur_lt S g (j + 1) (by omega), c6dur_lt S g (j + 2) (by omega),
              c6lev_lt S g (j + 2) (by omega), c6lev_ge S g hg g (by omega), hlevnext]
            constructor
            · rintro ⟨h1, h2, h3, h4, h5, h6, h7⟩
              exact ⟨h1, h2, by omega, h4, h5, by omega, h7⟩
            · rintro ⟨h1, h2, h3, h4, h5, h6, h7⟩
              exact ⟨h1, h2, by omega, h4, h5, by omega, h7⟩
          · -- j + 2 = g: both break conditions are false
            have hje : j + 2 = g := by omega
            constructor
            · rintro ⟨h1, h2, h3, h4, h5, h6, h7⟩
              exfalso
              rw [show j + 3 = g + 1 from by omega, hlevnext] at h7
              rw [hje] at h5
              exact h5 h7
            · rintro ⟨h1, h2, h3, h4, h5, h6, h7⟩
              exfalso
              rw [hje, c6dur_ge S g hg g (by omega)] at h4
              omega
      have hCE := hCiff.mp hCS
      by_cases hb : flipBreakCond S j l
      · -- both stop here
        have hS : mergeRun S j l d = (j, d) := by
          rw [mergeRun_eq, if_pos hCS, if_pos hb]
        have hE : mergeRun (S.eraseIdx g) j l d = (j, d) := by
          rw [mergeRun_eq, if_pos hCE, if_pos (hbreak_iff.mp hb)]
        rw [hS, hE]
        have hble : j + 3 ≤ g := by
          by_contra hc
          have hje : j + 2 = g := by omega
          obtain ⟨h1, h2, h3, h4, h5, h6, h7⟩ := hb
          rw [show j + 3 = g + 1 from by omega, hlevnext] at h7
          rw [hje] at h5
          exact h5 h7
        refine ⟨rfl, by omega, hinv, ?_, fun _ => by omega⟩
        show flipEmitCond S j l ↔ flipEmitCond (S.eraseIdx g) j l
        unfold flipEmitCond
        rw [c6lev_lt S g (j + 1) (by omega), c6dur_lt S g (j + 1) (by omega),
          c6lev_lt S g (j + 2) (by omega), c6dur_lt S g (j + 2) (by omega)]
        constructor
        · rintro ⟨h1, h2, h3, h4, h5, h6⟩
          exact ⟨by omega, h2, h3, h4, h5, h6⟩
        · rintro ⟨h1, h2, h3, h4, h5, h6⟩
          exact ⟨by omega, h2, h3, h4, h5, h6⟩
      · -- both continue merging
        have hS : mergeRun S j l d = mergeRun S (j + 1) l (d + getDur S (j + 1)) := by
          rw [mergeRun_eq, if_pos hCS, if_neg hb]
        have hE : mergeRun (S.eraseIdx g) j l d =
            mergeRun (S.eraseIdx g) (j + 1) l (d + getDur S (j + 1)) := by
          rw [mergeRun_eq, if_pos hCE, if_neg (fun hbe => hb (hbreak_iff.mpr hbe)),
            c6dur_lt S g (j + 1) (by omega)]
        rw [hS, hE]
        exact ih (j + 1) l (d + getDur S (j + 1)) (by omega) (by omega) hCS.2
    · -- both stop immediately
      have hCE : ¬(j + 1 < (S.eraseIdx g).length ∧ getLevel (S.eraseIdx g) (j + 1) = l) :=
        fun hce => hCS (hCiff.mpr hce)
      have hS : mergeRun S j l d = (j, d) := by
        rw [mergeRun_eq, if_neg hCS]
      have hE : mergeRun (S.eraseIdx g) j l d = (j, d) := by
        rw [mergeRun_eq, if_neg hCE]
      rw [hS, hE]
      refine ⟨rfl, by omega, hinv, ?_, ?_⟩
      · show flipEmitCond S j l ↔ flipEmitCond (S.eraseIdx g) j l
        constructor
        · rintro ⟨h1, h2, h3, h4, h5, h6⟩
          exact absurd ⟨by omega, h2⟩ hCS
        · rintro ⟨h1, h2, h3, h4, h5, h6⟩
          exact absurd ⟨by omega, h2⟩ hCE
      · intro hf
        exact absurd ⟨by omega, hf.2.1⟩ hCS

set_option maxHeartbeats 1000000 in
theorem c6_prefix (hg : g < S.length) (hG1 : 1 ≤ g) (hGlen : g + 1 < S.length)
    (hgl : getDur S g < GLITCH_MAX_US)
    (hprev : GLITCH_MAX_US ≤ getDur S (g - 1))
    (hnext : GLITCH_MAX_US ≤ getDur S (g + 1))
    (hlevprev : getLevel S (g - 1) ≠ getLevel S g)
    (hlevnext : getLevel S (g + 1) = getLevel S g) :
    ∀ (n j : Nat) (hl : List Nat), S.length - j ≤ n → j < g →
      decodeLoop S j hl = decodeLoop (S.eraseIdx g) j hl := by
  have hlen2 := eraseIdx_len S g hg
  intro n
  induction n with
  | zero =>
    intro j hl hn hj
    exact absurd hn (by omega)
  | succ n ih =>
    intro j hl hn hj
    by_cases hcond : j < S.length ∧ hl.length < 68
    · have hcondE : j < (S.eraseIdx g).length ∧ hl.length < 68 := ⟨by omega, hcond.2⟩
      rw [decodeLoop_eq, if_pos hcond, decodeLoop_eq (S.eraseIdx g), if_pos hcondE]
      have hdj : getDur (S.eraseIdx g) j = getDur S j := c6dur_lt S g j hj
      have hlj : getLevel (S.eraseIdx g) j = getLevel S j := c6lev_lt S g j hj
      by_cases hgl2 : getDur S j < GLITCH_MAX_US
      · have hjg : j + 1 < g := by
          rcases Nat.lt_or_ge (j + 1) g with h | h
          · exact h
          · exfalso
            have hje : j = g - 1 := by omega
            rw [hje] at hgl2
            omega
        rw [if_pos hgl2,
          if_pos (show getDur (S.eraseIdx g) j < GLITCH_MAX_US from by rw [hdj]; exact hgl2)]
        have hres : restoreCond S j hl ↔ restoreCond (S.eraseIdx g) j hl := by
          unfold restoreCond
          rw [c6lev_lt S g (j + 1) hjg, c6dur_lt S g (j + 1) hjg, hlj]
          constructor
          · rintro ⟨h1, h2, h3, h4, h5⟩
            exact ⟨h1, by omega, h3, h4, h5⟩
          · rintro ⟨h1, h2, h3, h4, h5⟩
            exact ⟨h1, by omega, h3, h4, h5⟩
        have hpop : popCond S j hl ↔ popCond (S.eraseIdx g) j hl := by
          unfold popCond
          rw [c6dur_lt S g (j - 1) (by omega)]
        have hglp : glitchProcess S j hl = glitchProcess (S.eraseIdx g) j hl := by
          unfold glitchProcess
          by_cases hr : restoreCond S j hl
          · rw [if_pos hr, if_pos (hres.mp hr), hlj]
            by_cases hp : popCond S j hl
            · rw [if_pos hp, if_pos (hpop.mp hp)]
            · rw [if_neg hp, if_neg (fun hpe => hp (hpop.mpr hpe))]
          · rw [if_neg hr, if_neg (fun hre => hr (hres.mpr hre))]
        rw [hglp]
        exact ih (j + 1) _ (by omega) hjg
      · rw [if_neg hgl2]
        dsimp only
        rw [hlj, hdj]
        rw [if_neg hgl2]
        have hmp := c6_merge_prefix S g hg hG1 hGlen hgl hprev hnext hlevprev hlevnext
          S.length j (getLevel S j) (getDur S j) (by omega) hj rfl
        obtain ⟨hmeq, hmlt, hmlev, hmiff, hmle⟩ := hmp
        rw [← hmeq]
        have hrgej : j ≤ (mergeRun S j (getLevel S j) (getDur S j)).1 :=
          mergeRunF_ge _ _ _ _ _
        generalize hrq : mergeRun S j (getLevel S j) (getDur S j) = r
        rw [hrq] at hmlt hmlev hmiff hmle hrgej
        by_cases hfc : flipEmitCond S r.1 (getLevel S j)
        · rw [if_pos hfc, if_pos (hmiff.mp hfc)]
          cases hcl : classifyDur r.2 with
          | error e => rfl
          | ok halves =>
            dsimp only
            have h3 := hmle hfc
            have hfa : flipAppend S r.1 (appendHalves hl (getLevel S j) halves) =
                flipAppend (S.eraseIdx g) r.1 (appendHalves hl (getLevel S j) halves) := by
              unfold flipAppend
              rw [c6lev_lt S g (r.1 + 2) (by omega), c6dur_lt S g (r.1 + 1) (by omega),
                c6dur_lt S g (r.1 + 2) (by omega)]
            rw [hfa]
            rcases Nat.lt_or_ge (r.1 + 3) g with hlt | hge
            · exact ih (r.1 + 3) _ (by omega) hlt
            · have he : r.1 + 3 = g := by omega
              rw [he]
              exact c6_handoff S g hg hG1 hGlen hgl hnext hlevnext _
        · rw [if_neg hfc, if_neg (fun h2 => hfc (hmiff.mpr h2))]
          cases hcl : classifyDur r.2 with
          | error e => rfl
          | ok halves =>
            dsimp only
            rcases Nat.lt_or_ge (r.1 + 1) g with hlt | hge
            · exact ih (r.1 + 1) _ (by omega) hlt
            · have he : r.1 + 1 = g := by omega
              rw [he]
              exact c6_handoff S g hg hG1 hGlen hgl hnext hlevnext _
    · rw [decodeLoop_eq, if_neg hcond, decodeLoop_eq (S.eraseIdx g),
        if_neg (fun hc => hcond ⟨by omega, hc.2⟩)]

end C6Prefix

/-- C6 amended: dropping a sub-200µs pulse leaves the decode unchanged when
the glitch is isolated (both neighbours are at least 200µs long), the pulse
before it has a different level and the pulse after it carries the glitch's
own level.  (As stated, with no constraint relating the glitch to its
neighbours' levels and durations, the claim is false: see the
counterexample.) -/
theorem c6_amended_glitch_drop :
    ∀ (ints : List Pulse) (g : Nat),
      1 ≤ g → g + 1 < ints.length →
      getDur ints g < GLITCH_MAX_US →
      GLITCH_MAX_US ≤ getDur ints (g - 1) →
      GLITCH_MAX_US ≤ getDur ints (g + 1) →
      getLevel ints (g - 1) ≠ getLevel ints g →
      getLevel ints (g + 1) = getLevel ints g →
      decode_opentherm ints = decode_opentherm (ints.eraseIdx g) := by
  intro S g hG1 hGlen hgl hprev hnext hlevprev hlevnext
  have hg : g < S.length := by omega
  have hlen2 := eraseIdx_len S g hg
  have hcoll : collectHalves S = collectHalves (S.eraseIdx g) := by
    unfold collectHalves
    have hsf : (1 < S.length ∧ getLevel S 0 = 1 ∧ getLevel S 1 = 0) ↔
        (1 < (S.eraseIdx g).length ∧ getLevel (S.eraseIdx g) 0 = 1 ∧
         getLevel (S.eraseIdx g) 1 = 0) := by
      rw [c6lev_lt S g 0 (by omega)]
      rcases Nat.lt_or_ge 1 g with h1g | h1g
      · rw [c6lev_lt S g 1 h1g]
        constructor
        · rintro ⟨h1, h2, h3⟩; exact ⟨by omega, h2, h3⟩
        · rintro ⟨h1, h2, h3⟩; exact ⟨by omega, h2, h3⟩
      · have hge : g = 1 := by omega
        subst hge
        rw [c6lev_ge S 1 hg 1 (by omega), hlevnext]
        constructor
        · rintro ⟨h1, h2, h3⟩; exact ⟨by omega, h2, h3⟩
        · rintro ⟨h1, h2, h3⟩; exact ⟨by omega, h2, h3⟩
    have hl0eq : (if 1 < S.length ∧ getLevel S 0 = 1 ∧ getLevel S 1 = 0
          then [1] else ([] : List Nat)) =
        (if 1 < (S.eraseIdx g).length ∧ getLevel (S.eraseIdx g) 0 = 1 ∧
            getLevel (S.eraseIdx g) 1 = 0 then [1] else ([] : List Nat)) := by
      by_cases h : 1 < S.length ∧ getLevel S 0 = 1 ∧ getLevel S 1 = 0
      · rw [if_pos h, if_pos (hsf.mp h)]
      · rw [if_neg h, if_neg (fun h2 => h (hsf.mpr h2))]
    rw [← hl0eq]
    rcases Nat.lt_or_ge 1 g with h1g | h1g
    · exact c6_prefix S g hg hG1 hGlen hgl hprev hnext hlevprev hlevnext
        S.length 1 _ (by omega) h1g
    · have hge : g = 1 := by omega
      subst hge
      exact c6_handoff S 1 hg hG1 hGlen hgl hnext hlevnext _
  unfold decode_opentherm preprocessOT
  rw [hcoll]

/-- Witness for C6 amended: a concrete isolated 80µs glitch at index 2 whose
neighbours satisfy the amended hypotheses; dropping it leaves the decode
result unchanged. -/
theorem c6_amended_glitch_drop_witness :
    decode_opentherm c6AlignedStream = decode_opentherm (c6AlignedStream.eraseIdx 2) :=
  c6_amended_glitch_drop c6AlignedStream 2 (by decide) (by decide) (by decide)
    (by decide) (by decide) (by decide) (by decide)

/-- C6 counterexample: `c6Stream` contains an isolated 5µs glitch at index 2
whose restore condition fails (the pulse after it lasts only 250µs), yet
removing the glitch changes the decode result: the original stream fails
with `InvalidDuration` while the stream without the glitch fails with
`HalfCountMismatch` (the two 650µs and 250µs LOW neighbours merge into one
valid 900µs segment). -/
theorem c6_counterexample :
    decode_opentherm c6Stream = .error .invalidDuration ∧
    decode_opentherm (c6Stream.eraseIdx 2) = .error .halfCountMismatch ∧
    decode_opentherm c6Stream ≠ decode_opentherm (c6Stream.eraseIdx 2) ∧
    getDur c6Stream 2 < GLITCH_MAX_US ∧
    GLITCH_MAX_US ≤ getDur c6Stream 1 ∧ GLITCH_MAX_US ≤ getDur c6Stream 3 ∧
    ¬restoreCond c6Stream 2 [1, 0] :=
  ⟨by decide, by decide, by decide, by decide, by decide, by decide, by decide⟩
